import Mathlib

/-!
# sources_summary: metric computation layer

A shallow embedding of `main.go` (package `main` of `denisb0/sources_summary`):
the windowed success-ratio accumulator (`successRatio`), the activity scorer
(`evalActivity`), the per-source aggregation (`getEntryData` and the source-record loop
of `main`) and the loop of `main` over the source ids, followed by the properties of the
specification that they satisfy and by the inputs on which `evalActivity` leaves it.

Conventions of the embedding.

* A `time.Time` is an instant; only `After`, `Before`, `Sub` and `Add` are used by the
  program, all of which depend on the instant alone.  An instant is an `Int` number of
  nanoseconds since the Unix epoch; the methods of `time.Time` are in the namespace `Time`.
* A `time.Duration` is an `int64` number of nanoseconds: it is an `Int`, and every
  operation that can leave the `int64` range is written with its Go behaviour
  (`Time.Sub` saturates, `*` and unary `-` wrap, `/` truncates toward zero).  Lengths and
  counters (Go `int`, `uint64`) are bounded by the length of a slice and never leave
  their range.
* A `float64` that is converted back to an integer (`verifyPeriod`) is computed bit-exactly:
  `float64OfInt64` rounds to 53 significant bits, ties to even.  The `float64` arithmetic
  behind `DaysSinceLastEntry` and `AvgEntriesDay` (`Duration.Hours`, the divisions, the
  product and `math.Round`) is computed bit-exactly as well: every operation yields
  `float64OfRat` of its exact result, the double nearest to it, and a finite `Float64`
  holds the rational that this double denotes.  The quotient of two integers that
  `successRatio.value` and `evalActivity` return is represented by `Float64.divInt`, whose
  finite values carry the exact rational that the double approximates.
* A run-time panic is an `Except.error`; a returned `error` is a `GoError`.
* The database is read only: the outcome of a `Find` call is an argument of the function
  that makes the call.
-/

namespace SourcesSummary

/-! ## Machine integers and `time` -/

/-- Smallest `int64`. -/
def minInt64 : Int := -9223372036854775808

/-- Largest `int64`. -/
def maxInt64 : Int := 9223372036854775807

/-- Two's-complement wrap-around of an integer result into the `int64` range. -/
def wrapInt64 (x : Int) : Int := (x + 9223372036854775808) % 18446744073709551616 - 9223372036854775808

/-- One hour, `time.Hour`. -/
def Hour : Int := 3600000000000

/-- Method `t.After(u)`. -/
def Time.After (t u : Int) : Bool := decide (u < t)

/-- Method `t.Before(u)`. -/
def Time.Before (t u : Int) : Bool := decide (t < u)

/-- Method `t.Sub(u)`: the difference `t - u`, saturated at the largest and the smallest
`Duration` when it does not fit an `int64`. -/
def Time.Sub (t u : Int) : Int :=
  if t - u < minInt64 then minInt64
  else if maxInt64 < t - u then maxInt64
  else t - u

/-- Method `t.Add(d)`. -/
def Time.Add (t : Int) (d : Int) : Int := t + d

/-- Run-time panics the program can raise in the modelled code. -/
inductive GoPanic where
  | indexOutOfRange
  | integerDivideByZero
  deriving DecidableEq, Repr

/-- Slice indexing `xs[i]`, which panics when `i` is out of range. -/
def index {α : Type} (xs : List α) (i : Int) : Except GoPanic α :=
  if i < 0 then .error .indexOutOfRange
  else match xs.get? i.toNat with
    | some x => .ok x
    | none => .error .indexOutOfRange

/-- Integer division of two `Duration`s: truncated toward zero, panics on a zero divisor. -/
def Duration.div (a b : Int) : Except GoPanic Int :=
  if b = 0 then .error .integerDivideByZero else .ok (wrapInt64 (Int.tdiv a b))

/-! ## `float64` -/

/-- Value of a `float64` that the program returns. -/
inductive Float64 where
  | finite (q : ℚ)
  | posInf
  | negInf
  | nan
  deriving DecidableEq

/-- Quotient `float64(a) / float64(b)` of two integers: IEEE division yields an infinity or
a NaN on a zero divisor, and otherwise (the double nearest to) the quotient. -/
def Float64.divInt (a b : Int) : Float64 :=
  if b = 0 then
    if 0 < a then .posInf else if a < 0 then .negInf else .nan
  else .finite ((a : ℚ) / (b : ℚ))

/-- Conversion `float64(x)` of an `int64`, as the integer the resulting double denotes:
exact below `2^53`, otherwise rounded to 53 significant bits, ties to even. -/
def float64OfInt64 (x : Int) : Int :=
  let n := x.natAbs
  if n < 9007199254740992 then x
  else
    let e := Nat.log2 n - 52
    let q := n / 2 ^ e
    let r := n % 2 ^ e
    let half := 2 ^ (e - 1)
    let q := if half < r ∨ (r = half ∧ q % 2 = 1) then q + 1 else q
    Int.sign x * ((q * 2 ^ e : Nat) : Int)

/-- Nearest integer to a rational, a tie going to the even neighbour. -/
def roundHalfEven (m : ℚ) : Int :=
  if m - (Int.floor m : ℚ) < 1 / 2 then Int.floor m
  else if 1 / 2 < m - (Int.floor m : ℚ) then Int.floor m + 1
  else if Int.floor m % 2 = 0 then Int.floor m
  else Int.floor m + 1

/-- The `float64` nearest to the real number `q` (round to nearest, ties to even), as the
rational it denotes: `q` is scaled to a significand in `[2^52, 2^53)`, which is rounded to
an integer.  This is the result of a `float64` operation whose exact result is `q`, and of
the conversion `float64(n)` of an integer `n`.  The exponent range of `float64` is not
represented: the numbers rounded in this program are zero or of a magnitude between
`2^-47` (one nanosecond in days) and `2^120` (a slice length over that many days, times
one hundred), where every double is normal. -/
def float64OfRat (q : ℚ) : ℚ :=
  if q = 0 then 0
  else
    let e : Int := Int.log 2 |q| - 52
    (if q < 0 then -1 else 1) * ((roundHalfEven (|q| / (2 : ℚ) ^ e) : Int) : ℚ) * (2 : ℚ) ^ e

/-- Outcome of converting a `float64` that no `int64` represents.  The Go specification
leaves the result implementation-dependent: x86 yields the integer indefinite value (the
smallest `int64`), saturating ports yield the largest `int64`. -/
inductive F64Overflow where
  | indefinite
  | saturate
  deriving DecidableEq, Repr

/-- Conversion `int64(f)` (here `time.Duration(f)`) of an integral double `f`. -/
def int64OfFloat64 (cv : F64Overflow) (f : Int) : Int :=
  if minInt64 ≤ f ∧ f ≤ maxInt64 then f
  else match cv with
    | .indefinite => minInt64
    | .saturate => maxInt64

/-! ## Package-level variables -/

/-- Instant `time.Date(2023, time.September, 29, 0, 0, 0, 0, time.UTC)`. -/
def llmEnrichStartDate : Int := 1695945600 * 1000000000

/-- Thirty days. -/
def llmEnrichEvalPeriod : Int := 30 * 24 * Hour

/-- Twenty-four hours. -/
def stalledProcessingThreshold : Int := 24 * Hour

/-! ## `successRatio` -/

/-- Struct `successRatio`. -/
structure successRatio where
  startDate : Int
  endDate : Int
  successCount : Int
  totalCount : Int
  deriving DecidableEq, Repr

/-- Constructor `newSuccessRatio`: both counters take their zero value. -/
def newSuccessRatio (startDate endDate : Int) : successRatio :=
  { startDate := startDate, endDate := endDate, successCount := 0, totalCount := 0 }

/-- Method `(*successRatio).add`; the receiver after the call. -/
def successRatio.add (sr : successRatio) (t : Int) (success : Bool) : successRatio :=
  if Time.After t sr.startDate && Time.Before t sr.endDate then
    let sr := { sr with totalCount := sr.totalCount + 1 }
    if success then { sr with successCount := sr.successCount + 1 } else sr
  else sr

/-- Method `successRatio.value`. -/
def successRatio.value (sr : successRatio) : Float64 :=
  if sr.totalCount = 0 then .finite 0
  else Float64.divInt sr.successCount sr.totalCount

/-- Function `latestDate`: the latest of `date` and `dates`. -/
def latestDate (date : Int) (dates : List Int) : Int :=
  dates.foldl (fun res d => if Time.After d res then d else res) date

/-! ## Records (`models`) -/

/-- Struct `models.Enriched`. -/
structure Enriched where
  Model : String
  EnrichID : String
  deriving DecidableEq, Repr

/-- Struct `models.EntryMetadata`, the fields the program reads; `Enriched` is a pointer,
`none` being `nil`. -/
structure EntryMetadata where
  Order : Int
  Enriched : Option Enriched
  deriving DecidableEq, Repr

/-- Struct `models.ContentEntry`, the fields the program reads. -/
structure ContentEntry where
  SourceID : String
  Status : String
  EntryMetadata : EntryMetadata
  CreatedAt : Int
  RejectReason : String
  deriving DecidableEq, Repr

/-- Struct `models.ContentSource`, the fields the program reads.  `Options` holds what
`json.Unmarshal` makes of the raw message in `engagementThreshold`: `none` when it fails,
otherwise the value of `engagement.threshold` (zero when the field is missing). -/
structure ContentSource where
  SourceID : String
  Options : Option Int
  Status : String
  CreatedAt : Int
  UpdatedAt : Int
  deriving DecidableEq, Repr

/-- Struct `models.SummaryData`. -/
structure SummaryData where
  SourceCount : Nat
  Enabled : Bool
  StalledProcessing : Bool
  EngagementCheck : Bool
  AddedAt : Int
  EntryCount : Nat
  CompletedCount : Nat
  ErrorCount : Nat
  DaysSinceLastEntry : Float64
  AvgEntriesDay : Float64
  Activity : Float64
  LLMEnrichedRatio : Float64
  deriving DecidableEq

/-- The zero `time.Time`, January 1 of year 1, 00:00 UTC. -/
def zeroTime : Int := -62135596800 * 1000000000

/-- The zero value of `models.SummaryData` (`var summary models.SummaryData`). -/
def SummaryData.zero : SummaryData :=
  { SourceCount := 0, Enabled := false, StalledProcessing := false, EngagementCheck := false,
    AddedAt := zeroTime, EntryCount := 0, CompletedCount := 0, ErrorCount := 0,
    DaysSinceLastEntry := .finite 0, AvgEntriesDay := .finite 0, Activity := .finite 0,
    LLMEnrichedRatio := .finite 0 }

/-! ## `evalActivity` -/

/-- The call `sort.Slice(entries, less)` with `less(i, j) = entries[i].CreatedAt.Before(entries[j].CreatedAt)`:
the entries in ascending order of `CreatedAt`.  (`sort.Slice` leaves the order of entries
with equal `CreatedAt` unspecified; here they keep their relative order.) -/
def sortSlice (entries : List ContentEntry) : List ContentEntry :=
  entries.insertionSort (fun a b => a.CreatedAt ≤ b.CreatedAt)

/-- The expression
`time.Duration(math.Max(float64(avgInterval*time.Duration(minEntryCount)), float64(7*24*time.Hour)))`. -/
def verifyPeriodOf (cv : F64Overflow) (avgInterval : Int) (minEntryCount : Int) : Int :=
  int64OfFloat64 cv
    (max (float64OfInt64 (wrapInt64 (avgInterval * minEntryCount))) (float64OfInt64 (7 * 24 * Hour)))

/-- The loop `for i, e := range entries` of `evalActivity`, run on the entries from index
`i` on: at the first entry created after `verifyPeriodStart` it yields `entryCount - i`
and stops; `verifyEntryCount` keeps its zero value when there is none. -/
def verifyEntryCountLoop (verifyPeriodStart : Int) (entryCount : Int) :
    List ContentEntry → Int → Int
  | [], _ => 0
  | e :: es, i =>
    if Time.After e.CreatedAt verifyPeriodStart then entryCount - i
    else verifyEntryCountLoop verifyPeriodStart entryCount es (i + 1)

/-- Function `evalActivity`. -/
def evalActivity (cv : F64Overflow) (entries : List ContentEntry) (now : Int) :
    Except GoPanic Float64 :=
  let minEntryCount : Int := 20
  let maxInactiveInterval : Int := 30 * 24 * Hour
  let entryCount : Int := entries.length
  if entryCount < minEntryCount then .ok (.finite 0)
  else
    let entries := sortSlice entries
    (index entries 0).bind fun e0 =>
    let firstCreated := e0.CreatedAt
    (index entries (entryCount - 1)).bind fun eN =>
    let lastCreated := eN.CreatedAt
    if Time.Sub now lastCreated > maxInactiveInterval then .ok (.finite 0)
    else if Time.Sub lastCreated firstCreated < 24 * Hour then .ok (.finite 0)
    else
      (Duration.div (Time.Sub lastCreated firstCreated) (entryCount - 1)).bind fun avgInterval =>
      let verifyPeriod := verifyPeriodOf cv avgInterval minEntryCount
      let verifyPeriodStart := Time.Add now (wrapInt64 (-verifyPeriod))
      let verifyEntryCount := verifyEntryCountLoop verifyPeriodStart entryCount entries 0
      if verifyEntryCount = 0 then
        (index entries 0).bind fun _ => .ok (.finite 0)
      else
        (Duration.div verifyPeriod verifyEntryCount).bind fun verifyIntervalAvg =>
        .ok (Float64.divInt avgInterval verifyIntervalAvg)

/-! ## The source-record loop of `main` -/

/-- Function `engagementThreshold`, on the outcome of `json.Unmarshal`: the threshold, or
zero with an error (which the caller discards). -/
def engagementThreshold (message : Option Int) : Int × Bool :=
  match message with
  | none => (0, true)
  | some threshold => (threshold, false)

/-- One iteration of `for _, src := range sources` in `main`. -/
def sourceStep (now : Int) (summary : SummaryData) (src : ContentSource) : SummaryData :=
  let summary :=
    if src.Status = "processing" then
      let summary := { summary with Enabled := true }
      if Time.Sub now src.UpdatedAt > stalledProcessingThreshold then
        { summary with StalledProcessing := true }
      else summary
    else summary
  let summary :=
    if Time.Before src.CreatedAt summary.AddedAt then { summary with AddedAt := src.CreatedAt }
    else summary
  let engagement := (engagementThreshold src.Options).1
  if engagement > 0 then { summary with EngagementCheck := true } else summary

/-- The statements of `main` from `summary.SourceCount = uint64(len(sources))` to the end
of the loop over `sources`, starting from the zero `summary`; `sources[0]` panics on an
empty slice. -/
def sourceLoop (now : Int) (sources : List ContentSource) : Except GoPanic SummaryData :=
  let summary := { SummaryData.zero with SourceCount := sources.length }
  (index sources 0).bind fun s0 =>
  let summary := { summary with AddedAt := s0.CreatedAt }
  .ok (sources.foldl (sourceStep now) summary)

/-! ## `getEntryData` -/

/-- Method `Duration.Hours`, the duration in hours as a `float64`:
`hour := d / Hour; nsec := d % Hour; return float64(hour) + float64(nsec)/(60*60*1e9)`,
with the truncated quotient and remainder of Go and each of the two conversions, the
division and the sum rounded to a double. -/
def Duration.Hours (d : Int) : ℚ :=
  let hour : Int := Int.tdiv d Hour
  let nsec : Int := Int.tmod d Hour
  float64OfRat (float64OfRat (hour : ℚ) + float64OfRat (float64OfRat (nsec : ℚ) / 3600000000000))

/-- Function `math.Round`: the nearest integer, halves rounded away from zero.  The result
is an integer, hence a double whenever the argument is one. -/
def mathRound (x : ℚ) : ℚ :=
  if 0 ≤ x then ((Int.floor (x + 1 / 2) : Int) : ℚ) else -((Int.floor (-x + 1 / 2) : Int) : ℚ)

/-- Expression `d.Hours() / 24`: a duration in days as a `float64`. -/
def daysOf (d : Int) : ℚ := float64OfRat (Duration.Hours d / 24)

/-- Expression
`math.Round(float64(len(activityEntries))/(activeDuration.Hours()/24)*100) / 100` of
`getEntryData`, for `n = len(activityEntries)`: the conversion, the two divisions and the
product are rounded to a double each, and `math.Round` is applied to the double that the
product yields. -/
def avgEntriesDay (n : Nat) (activeDuration : Int) : ℚ :=
  float64OfRat
    (mathRound (float64OfRat (float64OfRat (float64OfRat (n : ℚ) / daysOf activeDuration) * 100))
      / 100)

/-- Values of type `error` that the modelled code returns. -/
inductive GoError where
  | db (msg : String)
  | noEntriesFound
  deriving DecidableEq, Repr

/-- The variables that the loop `for _, entry := range entries` of `getEntryData` updates. -/
structure EntryLoopState where
  summary : SummaryData
  activityEntries : List ContentEntry
  llmSuccess : successRatio

/-- One iteration of `for _, entry := range entries` in `getEntryData`. -/
def entryStep (st : EntryLoopState) (entry : ContentEntry) : EntryLoopState :=
  let st :=
    if entry.Status = "completed" then
      let st := { st with summary := { st.summary with CompletedCount := st.summary.CompletedCount + 1 } }
      let st :=
        if entry.EntryMetadata.Order = 0 then
          { st with activityEntries := st.activityEntries ++ [entry] }
        else st
      { st with llmSuccess := st.llmSuccess.add entry.CreatedAt entry.EntryMetadata.Enriched.isSome }
    else st
  if entry.RejectReason = "generic_error" then
    { st with summary := { st.summary with ErrorCount := st.summary.ErrorCount + 1 } }
  else st

/-- Function `getEntryData`.  `query` is the outcome of the `Find` call (the entries of the
source whose `reject_reason` is not `low_engagement`, in ascending order of `created_at`, or
an error); the result is `*summary` after the call and the returned `error` (`none` is
`nil`). -/
def getEntryData (cv : F64Overflow) (query : Except String (List ContentEntry))
    (summary : SummaryData) (now : Int) : Except GoPanic (SummaryData × Option GoError) :=
  match query with
  | .error err => .ok (summary, some (.db err))
  | .ok entries =>
    let summary := { summary with EntryCount := entries.length }
    if summary.EntryCount = 0 then .ok (summary, some .noEntriesFound)
    else
      (index entries ((entries.length : Int) - 1)).bind fun eLast =>
      let lastActivity := eLast.CreatedAt
      let summary :=
        { summary with
          DaysSinceLastEntry := .finite (daysOf (Time.Sub now lastActivity)) }
      let llmSuccess :=
        newSuccessRatio (latestDate llmEnrichStartDate [Time.Add now (wrapInt64 (-llmEnrichEvalPeriod))])
          now
      let st := entries.foldl entryStep
        { summary := summary, activityEntries := [], llmSuccess := llmSuccess }
      let summary := st.summary
      let activeDuration := Time.Sub lastActivity summary.AddedAt
      let summary :=
        if activeDuration > 0 then
          { summary with
            AvgEntriesDay := .finite (avgEntriesDay st.activityEntries.length activeDuration) }
        else summary
      (if st.activityEntries.length > 0 then
        (evalActivity cv entries now).bind fun activity =>
          .ok { summary with Activity := activity }
      else .ok summary).bind fun summary =>
      .ok ({ summary with LLMEnrichedRatio := st.llmSuccess.value }, none)

/-! ## The loop over `sourceIDs` of `main` -/

/-- Struct `models.SourceSummary`. -/
structure SourceSummary where
  SourceID : String
  Summary : SummaryData
  CreatedAt : Int
  UpdatedAt : Int
  deriving DecidableEq

/-- The body of `for i, sid := range sourceIDs` in `main` after the test of `sourcesLimit`:
the row appended at `ADDSUMMARY`.  `sourcesQuery` and `entriesQuery` are the outcomes of the
two `Find` calls for `sid`. -/
def sourceBody (cv : F64Overflow) (now : Int) (sid : String)
    (sourcesQuery : Except String (List ContentSource))
    (entriesQuery : Except String (List ContentEntry)) : Except GoPanic SourceSummary :=
  match sourcesQuery with
  | .error _ =>
    .ok { SourceID := sid, Summary := SummaryData.zero, CreatedAt := now, UpdatedAt := now }
  | .ok sources =>
    (sourceLoop now sources).bind fun summary =>
    if summary.Enabled then
      (getEntryData cv entriesQuery summary now).bind fun r =>
        .ok { SourceID := sid, Summary := r.1, CreatedAt := now, UpdatedAt := now }
    else .ok { SourceID := sid, Summary := summary, CreatedAt := now, UpdatedAt := now }

/-- The loop `for i, sid := range sourceIDs` of `main`, from index `i` on, with
`sourcesLimit = 100`: the slice `summaries` after the loop. -/
def summariesLoop (cv : F64Overflow) (now : Int)
    (sourcesOf : String → Except String (List ContentSource))
    (entriesOf : String → Except String (List ContentEntry)) :
    List String → Nat → List SourceSummary → Except GoPanic (List SourceSummary)
  | [], _, summaries => .ok summaries
  | sid :: rest, i, summaries =>
    if i = 100 then .ok summaries
    else
      (sourceBody cv now sid (sourcesOf sid) (entriesOf sid)).bind fun row =>
        summariesLoop cv now sourcesOf entriesOf rest (i + 1) (summaries ++ [row])

/-! ## Scenario inputs -/

/-- An entry that is completed, first-submission and not enriched, created at `t`. -/
def entryAt (t : Int) : ContentEntry :=
  { SourceID := "source", Status := "completed", EntryMetadata := { Order := 0, Enriched := none },
    CreatedAt := t, RejectReason := "" }

/-- Five entries, one every 24 hours. -/
def fiveEntries : List ContentEntry :=
  (List.range 5).map fun i => entryAt ((i : Int) * (24 * Hour))

/-- The cadence scenario: 25 entries exactly one day apart, the first at `t0`. -/
def cadenceEntries (t0 : Int) : List ContentEntry :=
  (List.range 25).map fun i => entryAt (t0 + (i : Int) * (24 * Hour))

/-- Twenty entries one hour apart, the first at instant 0. -/
def hourlyEntries : List ContentEntry :=
  (List.range 20).map fun i => entryAt ((i : Int) * Hour)

/-- One entry at instant 0 followed by forty entries created together forty days later. -/
def burstEntries : List ContentEntry :=
  entryAt 0 :: List.replicate 40 (entryAt (40 * (24 * Hour)))

/-- Three records of one source, the earliest created one in the middle. -/
def threeSources : List ContentSource :=
  [ { SourceID := "source", Options := some 0, Status := "paused",
      CreatedAt := 5 * Hour, UpdatedAt := 6 * Hour },
    { SourceID := "source", Options := none, Status := "processing",
      CreatedAt := 2 * Hour, UpdatedAt := 99 * Hour },
    { SourceID := "source", Options := some 3, Status := "processing",
      CreatedAt := 9 * Hour, UpdatedAt := 10 * Hour } ]

/-- Two records of one source, neither of them processing. -/
def pausedSources : List ContentSource :=
  [ { SourceID := "source", Options := some 2, Status := "paused",
      CreatedAt := 5 * Hour, UpdatedAt := 6 * Hour },
    { SourceID := "source", Options := none, Status := "disabled",
      CreatedAt := 2 * Hour, UpdatedAt := 3 * Hour } ]

/-- One record of a source, processing, created at instant 0. -/
def oneSource : List ContentSource :=
  [ { SourceID := "source", Options := none, Status := "processing",
      CreatedAt := 0, UpdatedAt := 390 * Hour } ]

/-- Three entries of that source, created 100, 200 and 320 hours after its record. -/
def threeEntries : List ContentEntry :=
  [entryAt (100 * Hour), entryAt (200 * Hour), entryAt (320 * Hour)]

/-- Four entries in ascending order of `CreatedAt`: a completed, enriched one a day before
`llmEnrichStartDate`; a completed, enriched one a day after it; a completed repost that is
not enriched; and a failed one with reject reason `generic_error`. -/
def mixedEntries : List ContentEntry :=
  [ { SourceID := "source", Status := "completed",
      EntryMetadata := { Order := 0, Enriched := some { Model := "m", EnrichID := "a" } },
      CreatedAt := llmEnrichStartDate - 24 * Hour, RejectReason := "" },
    { SourceID := "source", Status := "completed",
      EntryMetadata := { Order := 0, Enriched := some { Model := "m", EnrichID := "b" } },
      CreatedAt := llmEnrichStartDate + 24 * Hour, RejectReason := "" },
    { SourceID := "source", Status := "completed",
      EntryMetadata := { Order := 1, Enriched := none },
      CreatedAt := llmEnrichStartDate + 48 * Hour, RejectReason := "" },
    { SourceID := "source", Status := "failed",
      EntryMetadata := { Order := 0, Enriched := some { Model := "m", EnrichID := "c" } },
      CreatedAt := llmEnrichStartDate + 72 * Hour, RejectReason := "generic_error" } ]

/-- Twenty entries: one created at the zero `time.Time` (January 1 of year 1) and nineteen
created at `llmEnrichStartDate` (2023-09-29 00:00 UTC). -/
def yearOneEntries : List ContentEntry :=
  entryAt zeroTime :: List.replicate 19 (entryAt llmEnrichStartDate)

/-- Twenty-one entries: one created at the zero `time.Time` and twenty created at
`llmEnrichStartDate`. -/
def yearOneEntries21 : List ContentEntry :=
  entryAt zeroTime :: List.replicate 20 (entryAt llmEnrichStartDate)

/-- Twenty entries of a source that posts about every three weeks: nineteen entries
`1801439850949000` ns (20.85 days) apart from 2022-08-01 00:00 UTC on, and a last one
`1801439850951000` ns after the nineteenth; all instants are whole microseconds. -/
def threeWeekEntries : List ContentEntry :=
  ((List.range 19).map fun i => entryAt (1659312000000000000 + (i : Int) * 1801439850949000)) ++
    [entryAt (1659312000000000000 + 19 * 1801439850949000 + 2000)]

/-- The instant `2 ns` before the first of `threeWeekEntries` plus twenty times their
average interval `1801439850949105`: 2023-09-21 23:59:57.018982098 UTC. -/
def threeWeekNow : Int := 1659312000000000000 + 20 * 1801439850949105 - 2

/-! ## The specification of the activity score -/

/-- The activity score as the specification states it (Activity Scorer, steps 3 and 6 to
11), in exact integer arithmetic on nanoseconds: `first` and `last` are the earliest and the
latest `CreatedAt`, `avgInterval = (last - first) / (count - 1)`,
`verifyPeriod = max(avgInterval * 20, 7 days)`, `verifyCount` is the number of entries with
`CreatedAt > now - verifyPeriod`, `verifyIntervalAvg = verifyPeriod / verifyCount`, and the
score is `0` when `verifyCount = 0` and `avgInterval / verifyIntervalAvg` otherwise; a
duration divided by a count is truncated toward zero. -/
def activitySpec (entries : List ContentEntry) (now : Int) : Float64 :=
  match (entries.map fun e => e.CreatedAt).min?, (entries.map fun e => e.CreatedAt).max? with
  | some first, some last =>
    let count : Int := entries.length
    let avgInterval := Int.tdiv (last - first) (count - 1)
    let verifyPeriod := max (avgInterval * 20) (7 * 24 * Hour)
    let verifyCount : Int := entries.countP (fun e => decide (e.CreatedAt > now - verifyPeriod))
    let verifyIntervalAvg := Int.tdiv verifyPeriod verifyCount
    if verifyCount = 0 then .finite 0
    else Float64.divInt avgInterval verifyIntervalAvg
  | _, _ => .finite 0

/-! ## Auxiliary definitions -/

/-- The statements of `evalActivity` that follow the reads of `firstCreated` and
`lastCreated`, as a function of the number of entries, these two instants, and the number
`count s` of entries created after an instant `s`.  It is used in proofs only:
`evalActivity_eq_scoreTail` shows that `evalActivity` computes it. -/
def scoreTail (cv : F64Overflow) (entryCount first last now : Int) (count : Int → Int) :
    Except GoPanic Float64 :=
  if Time.Sub now last > 30 * 24 * Hour then .ok (.finite 0)
  else if Time.Sub last first < 24 * Hour then .ok (.finite 0)
  else
    (Duration.div (Time.Sub last first) (entryCount - 1)).bind fun avgInterval =>
    if count (Time.Add now (wrapInt64 (-(verifyPeriodOf cv avgInterval 20)))) = 0 then
      .ok (.finite 0)
    else
      (Duration.div (verifyPeriodOf cv avgInterval 20)
        (count (Time.Add now (wrapInt64 (-(verifyPeriodOf cv avgInterval 20)))))).bind
        fun verifyIntervalAvg => .ok (Float64.divInt avgInterval verifyIntervalAvg)

/-! ## Auxiliary lemmas -/

/-- Indexing below the length succeeds. -/
theorem index_ok_of_lt {α : Type} (xs : List α) (i : Nat) (h : i < xs.length) :
    index xs (i : Int) = .ok (xs.get ⟨i, h⟩) := by
  have h0 : ¬ ((i : Int) < 0) := by omega
  simp [index, h0, List.getElem?_eq_getElem h]

/-- An upper bound on the exact difference bounds `Time.Sub`. -/
theorem Time.Sub_le_of_le (t u d : Int) (h : t - u ≤ d) (hd : minInt64 ≤ d) :
    Time.Sub t u ≤ d := by
  unfold Time.Sub
  unfold minInt64 maxInt64 at *
  split_ifs <;> omega

/-- A lower bound on the exact difference bounds `Time.Sub`. -/
theorem Time.Sub_ge_of_ge (t u d : Int) (h : d ≤ t - u) (hd : d ≤ maxInt64) :
    d ≤ Time.Sub t u := by
  unfold Time.Sub
  unfold minInt64 maxInt64 at *
  split_ifs <;> omega

/-! ## The accumulator -/

/-- Outside the open window `add` changes nothing. -/
theorem successRatio_add_outside (sr : successRatio) (t : Int) (success : Bool)
    (h : ¬ (sr.startDate < t ∧ t < sr.endDate)) : sr.add t success = sr := by
  by_cases h1 : sr.startDate < t <;> by_cases h2 : t < sr.endDate <;>
    simp_all [successRatio.add, Time.After, Time.Before]

/-- C1: `add` increments `totalCount` by one exactly when `startDate < t < endDate`
(strictly), then also `successCount` by one exactly when `success` is true; outside the
open window, in particular at `t = startDate` and `t = endDate`, the accumulator is left
unchanged. -/
theorem successRatio_add_counts (sr : successRatio) (t : Int) (success : Bool) :
    ((sr.add t success).totalCount = sr.totalCount + 1 ↔ (sr.startDate < t ∧ t < sr.endDate)) ∧
    ((sr.add t success).successCount = sr.successCount + 1 ↔
      (sr.startDate < t ∧ t < sr.endDate ∧ success = true)) ∧
    ((sr.add t success).totalCount = sr.totalCount ∨
      (sr.add t success).totalCount = sr.totalCount + 1) ∧
    ((sr.add t success).successCount = sr.successCount ∨
      (sr.add t success).successCount = sr.successCount + 1) ∧
    (¬ (sr.startDate < t ∧ t < sr.endDate) → sr.add t success = sr) ∧
    sr.add sr.startDate success = sr ∧ sr.add sr.endDate success = sr := by
  refine ⟨?_, ?_, ?_, ?_, ?_, ?_, ?_⟩
  · by_cases h1 : sr.startDate < t <;> by_cases h2 : t < sr.endDate <;>
      cases success <;> simp [successRatio.add, Time.After, Time.Before, h1, h2]
  · by_cases h1 : sr.startDate < t <;> by_cases h2 : t < sr.endDate <;>
      cases success <;> simp [successRatio.add, Time.After, Time.Before, h1, h2]
  · by_cases h1 : sr.startDate < t <;> by_cases h2 : t < sr.endDate <;>
      cases success <;> simp [successRatio.add, Time.After, Time.Before, h1, h2]
  · by_cases h1 : sr.startDate < t <;> by_cases h2 : t < sr.endDate <;>
      cases success <;> simp [successRatio.add, Time.After, Time.Before, h1, h2]
  · exact successRatio_add_outside sr t success
  · simp [successRatio.add, Time.After, Time.Before]
  · simp [successRatio.add, Time.After, Time.Before]

/-- Inside the open window `add` counts the outcome. -/
theorem successRatio_add_inside (sr : successRatio) (t : Int) (success : Bool)
    (h1 : sr.startDate < t) (h2 : t < sr.endDate) :
    sr.add t success =
      { sr with totalCount := sr.totalCount + 1,
                successCount := sr.successCount + (if success then 1 else 0) } := by
  cases success <;> simp [successRatio.add, Time.After, Time.Before, h1, h2]

/-- Counters after a sequence of `add` calls. -/
theorem successRatio_foldl_add (l : List (Int × Bool)) (sr : successRatio) :
    (l.foldl (fun sr p => sr.add p.1 p.2) sr).startDate = sr.startDate ∧
    (l.foldl (fun sr p => sr.add p.1 p.2) sr).endDate = sr.endDate ∧
    (l.foldl (fun sr p => sr.add p.1 p.2) sr).totalCount = sr.totalCount +
      (l.countP (fun p => decide (sr.startDate < p.1 ∧ p.1 < sr.endDate)) : Nat) ∧
    (l.foldl (fun sr p => sr.add p.1 p.2) sr).successCount = sr.successCount +
      (l.countP (fun p => decide (sr.startDate < p.1 ∧ p.1 < sr.endDate) && p.2) : Nat) := by
  induction l generalizing sr with
  | nil => simp
  | cons p l ih =>
    obtain ⟨t, b⟩ := p
    have hw : (sr.add t b).startDate = sr.startDate ∧ (sr.add t b).endDate = sr.endDate := by
      unfold successRatio.add; split_ifs <;> simp
    obtain ⟨h1, h2, h3, h4⟩ := ih (sr.add t b)
    simp only [hw.1, hw.2] at h1 h2 h3 h4
    simp only [List.foldl_cons]
    refine ⟨h1, h2, ?_, ?_⟩
    · rw [h3, List.countP_cons]
      by_cases hin : sr.startDate < t ∧ t < sr.endDate
      · rw [successRatio_add_inside sr t b hin.1 hin.2]
        simp [hin]; omega
      · rw [successRatio_add_outside sr t b hin]
        simp [hin]
    · rw [h4, List.countP_cons]
      by_cases hin : sr.startDate < t ∧ t < sr.endDate
      · rw [successRatio_add_inside sr t b hin.1 hin.2]
        cases b <;> simp [hin]; omega
      · rw [successRatio_add_outside sr t b hin]
        simp [hin]

/-- C2: after adding a list of `(timestamp, success)` pairs to a fresh accumulator,
`value()` is `k / m`, with `m` the number of pairs strictly inside the window and `k` the
number of those that are successes, and `0` when `m = 0`; a fresh accumulator gives `0`, and
the adds at `T-1` (true), `T2` (true), `T3` (false), `T6` (true) on the window `(T0, T5)`
give one half. -/
theorem successRatio_value_fold (startDate endDate : Int) (l : List (Int × Bool)) :
    (l.foldl (fun sr p => sr.add p.1 p.2) (newSuccessRatio startDate endDate)).value =
      .finite (if l.countP (fun p => decide (startDate < p.1 ∧ p.1 < endDate)) = 0 then 0
        else (l.countP (fun p => decide (startDate < p.1 ∧ p.1 < endDate) && p.2) : ℚ) /
          (l.countP (fun p => decide (startDate < p.1 ∧ p.1 < endDate)) : ℚ)) ∧
    (newSuccessRatio startDate endDate).value = .finite 0 ∧
    ∀ t0 : Int,
      (((((newSuccessRatio t0 (t0 + 5 * Hour)).add (t0 - Hour) true).add
        (t0 + 2 * Hour) true).add (t0 + 3 * Hour) false).add (t0 + 6 * Hour) true).value =
        .finite (1 / 2) := by
  refine ⟨?_, ?_, ?_⟩
  · obtain ⟨-, -, h3, h4⟩ := successRatio_foldl_add l (newSuccessRatio startDate endDate)
    simp only [newSuccessRatio, zero_add] at h3 h4
    unfold successRatio.value
    simp only [newSuccessRatio]
    rw [h3, h4]
    by_cases hm : l.countP (fun p => decide (startDate < p.1 ∧ p.1 < endDate)) = 0
    · rw [if_pos (by exact_mod_cast hm), if_pos hm]
    · rw [if_neg (by exact_mod_cast hm), if_neg hm]
      unfold Float64.divInt
      rw [if_neg (by exact_mod_cast hm)]
      push_cast
      rfl
  · simp [newSuccessRatio, successRatio.value]
  · intro t0
    rw [successRatio_add_outside _ (t0 - Hour) true (by simp [newSuccessRatio, Hour])]
    rw [successRatio_add_inside _ (t0 + 2 * Hour) true (by simp [newSuccessRatio, Hour])
      (by simp [newSuccessRatio, Hour])]
    rw [successRatio_add_inside _ (t0 + 3 * Hour) false (by simp [newSuccessRatio, Hour])
      (by simp [newSuccessRatio, Hour])]
    rw [successRatio_add_outside _ (t0 + 6 * Hour) true (by simp [newSuccessRatio, Hour])]
    simp [newSuccessRatio, successRatio.value, Float64.divInt]

/-! ## The activity scorer -/

/-- Sorting permutes the entries. -/
theorem sortSlice_perm (entries : List ContentEntry) : (sortSlice entries).Perm entries :=
  List.perm_insertionSort _ entries

/-- The sorted slice is in ascending order of `CreatedAt`. -/
theorem sortSlice_sorted (entries : List ContentEntry) :
    (sortSlice entries).Sorted (fun a b => a.CreatedAt ≤ b.CreatedAt) := by
  haveI : IsTotal ContentEntry (fun a b => a.CreatedAt ≤ b.CreatedAt) :=
    ⟨fun a b => le_total a.CreatedAt b.CreatedAt⟩
  haveI : IsTrans ContentEntry (fun a b => a.CreatedAt ≤ b.CreatedAt) :=
    ⟨fun a b c hab hbc => le_trans hab hbc⟩
  exact List.sorted_insertionSort _ entries

/-- On an ascending slice the loop counts the entries created after the start. -/
theorem verifyEntryCountLoop_sorted (s : Int) (l : List ContentEntry) (i : Int)
    (h : l.Sorted (fun a b => a.CreatedAt ≤ b.CreatedAt)) :
    verifyEntryCountLoop s (i + l.length) l i =
      (l.countP (fun e => decide (s < e.CreatedAt)) : Nat) := by
  induction l generalizing i with
  | nil => simp [verifyEntryCountLoop]
  | cons e es ih =>
    have hs := List.sorted_cons.mp h
    unfold verifyEntryCountLoop
    by_cases he : s < e.CreatedAt
    · have hall : ∀ x ∈ es, (fun e => decide (s < e.CreatedAt)) x = true := by
        intro x hx
        have := hs.1 x hx
        simp only [decide_eq_true_eq]
        omega
      have hc : (e :: es).countP (fun e => decide (s < e.CreatedAt)) = (e :: es).length := by
        rw [List.countP_eq_length]
        intro x hx
        rcases List.mem_cons.mp hx with rfl | hx
        · simpa using he
        · exact hall x hx
      rw [hc]
      simp [Time.After, he]
    · have := ih (i + 1) hs.2
      simp only [Time.After, he, decide_False, Bool.false_eq_true, if_false, List.countP_cons,
        List.length_cons]
      have e1 : i + ((es.length + 1 : Nat) : Int) = i + 1 + (es.length : Int) := by
        push_cast; ring
      rw [e1, this, Nat.add_zero]

/-- The first and the last entry of the sorted slice carry the earliest and the latest `CreatedAt`. -/
theorem sortSlice_ends (entries : List ContentEntry) (h : 0 < entries.length) :
    ∃ e0 eN : ContentEntry,
      index (sortSlice entries) 0 = .ok e0 ∧
      index (sortSlice entries) ((entries.length : Int) - 1) = .ok eN ∧
      e0 ∈ entries ∧ eN ∈ entries ∧
      (∀ e ∈ entries, e0.CreatedAt ≤ e.CreatedAt) ∧
      (∀ e ∈ entries, e.CreatedAt ≤ eN.CreatedAt) := by
  have hperm := sortSlice_perm entries
  have hsorted := sortSlice_sorted entries
  have hlen : (sortSlice entries).length = entries.length := hperm.length_eq
  have h0 : 0 < (sortSlice entries).length := by omega
  have hN : entries.length - 1 < (sortSlice entries).length := by omega
  haveI : IsRefl ContentEntry (fun a b => a.CreatedAt ≤ b.CreatedAt) :=
    ⟨fun a => le_refl a.CreatedAt⟩
  have hcast : ((entries.length : Int) - 1) = ((entries.length - 1 : Nat) : Int) := by omega
  refine ⟨(sortSlice entries).get ⟨0, h0⟩, (sortSlice entries).get ⟨entries.length - 1, hN⟩,
    index_ok_of_lt (sortSlice entries) 0 h0, ?_,
    hperm.mem_iff.mp (List.get_mem _ _ _), hperm.mem_iff.mp (List.get_mem _ _ _), ?_, ?_⟩
  · rw [hcast]
    exact index_ok_of_lt (sortSlice entries) (entries.length - 1) hN
  · intro e he
    obtain ⟨n, hn⟩ := List.mem_iff_get.mp (hperm.mem_iff.mpr he)
    rw [← hn]
    exact hsorted.rel_get_of_le (Fin.mk_le_of_le_val (Nat.zero_le _))
  · intro e he
    obtain ⟨n, hn⟩ := List.mem_iff_get.mp (hperm.mem_iff.mpr he)
    rw [← hn]
    refine hsorted.rel_get_of_le ?_
    have := n.2
    exact Fin.le_def.mpr (by simp only; omega)

/-- The loop of `evalActivity` counts the entries created after the start. -/
theorem verifyEntryCountLoop_sortSlice (entries : List ContentEntry) (s : Int) :
    verifyEntryCountLoop s entries.length (sortSlice entries) 0 =
      (entries.countP (fun e => decide (s < e.CreatedAt)) : Nat) := by
  have := verifyEntryCountLoop_sorted s (sortSlice entries) 0 (sortSlice_sorted entries)
  rw [(sortSlice_perm entries).length_eq, zero_add] at this
  rw [this, (sortSlice_perm entries).countP_eq]

/-- With at least 20 entries `evalActivity` is `scoreTail` at the ends of the sorted slice. -/
theorem evalActivity_eq_scoreTail_of_index (cv : F64Overflow) (entries : List ContentEntry)
    (now : Int) (e0 eN : ContentEntry) (h : 20 ≤ entries.length)
    (h0 : index (sortSlice entries) 0 = .ok e0)
    (hN : index (sortSlice entries) ((entries.length : Int) - 1) = .ok eN) :
    evalActivity cv entries now =
      scoreTail cv entries.length e0.CreatedAt eN.CreatedAt now
        (fun s => (entries.countP (fun e => decide (s < e.CreatedAt)) : Nat)) := by
  have hnot : ¬ ((entries.length : Int) < 20) := by omega
  unfold evalActivity scoreTail
  simp only [hnot, if_false, h0, hN, verifyEntryCountLoop_sortSlice, Except.bind]

/-- With at least 20 entries `evalActivity` is `scoreTail` at the earliest and latest `CreatedAt`. -/
theorem evalActivity_eq_scoreTail (cv : F64Overflow) (entries : List ContentEntry) (now : Int)
    (h : 20 ≤ entries.length) :
    ∃ first last : Int,
      (∃ e ∈ entries, e.CreatedAt = first) ∧ (∀ e ∈ entries, first ≤ e.CreatedAt) ∧
      (∃ e ∈ entries, e.CreatedAt = last) ∧ (∀ e ∈ entries, e.CreatedAt ≤ last) ∧
      evalActivity cv entries now =
        scoreTail cv entries.length first last now
          (fun s => (entries.countP (fun e => decide (s < e.CreatedAt)) : Nat)) := by
  obtain ⟨e0, eN, h0, hN, hm0, hmN, hmin, hmax⟩ := sortSlice_ends entries (by omega)
  exact ⟨e0.CreatedAt, eN.CreatedAt, ⟨e0, hm0, rfl⟩, hmin, ⟨eN, hmN, rfl⟩, hmax,
    evalActivity_eq_scoreTail_of_index cv entries now e0 eN h h0 hN⟩

/-- The guard on the number of entries. -/
theorem evalActivity_lt_minEntryCount (cv : F64Overflow) (entries : List ContentEntry)
    (now : Int) (h : entries.length < 20) :
    evalActivity cv entries now = .ok (.finite 0) := by
  have h' : (entries.length : Int) < 20 := by omega
  simp [evalActivity, h']

/-- C3: with fewer than 20 entries `evalActivity` returns 0, whatever the timestamps. -/
theorem evalActivity_few_entries (cv : F64Overflow) (entries : List ContentEntry) (now : Int)
    (h : entries.length < 20) :
    evalActivity cv entries now = .ok (.finite 0) := by
  have h' : (entries.length : Int) < 20 := by omega
  unfold evalActivity
  simp only [h', if_true]

/-- Five entries, one a day, score 0. -/
theorem evalActivity_few_entries_witness :
    (fiveEntries.length < 20) ∧
      evalActivity .indefinite fiveEntries (120 * Hour) = .ok (.finite 0) :=
  ⟨by decide, evalActivity_few_entries _ _ _ (by decide)⟩

/-- C4: when the latest `CreatedAt` among the entries (given in any order) is more than
30 days before `now`, `evalActivity` returns 0. -/
theorem evalActivity_inactive (cv : F64Overflow) (entries : List ContentEntry) (now : Int)
    (latest : Int) (hmem : ∃ e ∈ entries, e.CreatedAt = latest)
    (hmax : ∀ e ∈ entries, e.CreatedAt ≤ latest) (h : 30 * 24 * Hour < now - latest) :
    evalActivity cv entries now = .ok (.finite 0) := by
  by_cases hlen : entries.length < 20
  · exact evalActivity_lt_minEntryCount cv entries now hlen
  · obtain ⟨first, last, -, -, ⟨e, he, hel⟩, -, heq⟩ :=
      evalActivity_eq_scoreTail cv entries now (by omega)
    have hle : last ≤ latest := hel ▸ hmax e he
    have hsub : 30 * 24 * Hour + 1 ≤ Time.Sub now last :=
      Time.Sub_ge_of_ge now last _ (by omega) (by simp [Hour, maxInt64])
    have hgt : Time.Sub now last > 30 * 24 * Hour := by omega
    rw [heq, scoreTail, if_pos hgt]

/-- The 25 daily entries, scored 36 days after the last one, give 0. -/
theorem evalActivity_inactive_witness :
    ((∃ e ∈ cadenceEntries 0, e.CreatedAt = 24 * (24 * Hour)) ∧
      (∀ e ∈ cadenceEntries 0, e.CreatedAt ≤ 24 * (24 * Hour)) ∧
      30 * 24 * Hour < 60 * (24 * Hour) - 24 * (24 * Hour)) ∧
    evalActivity .indefinite (cadenceEntries 0) (60 * (24 * Hour)) = .ok (.finite 0) :=
  ⟨⟨by decide, by decide, by decide⟩,
    evalActivity_inactive _ _ _ (24 * (24 * Hour)) (by decide) (by decide) (by decide)⟩

/-- C5: when the latest `CreatedAt` minus the earliest `CreatedAt` of the entries (given
in any order) is less than 24 hours, `evalActivity` returns 0. -/
theorem evalActivity_single_day (cv : F64Overflow) (entries : List ContentEntry) (now : Int)
    (earliest latest : Int)
    (hmin : ∀ e ∈ entries, earliest ≤ e.CreatedAt) (hmax : ∀ e ∈ entries, e.CreatedAt ≤ latest)
    (hememb : ∃ e ∈ entries, e.CreatedAt = earliest) (hlmemb : ∃ e ∈ entries, e.CreatedAt = latest)
    (h : latest - earliest < 24 * Hour) :
    evalActivity cv entries now = .ok (.finite 0) := by
  by_cases hlen : entries.length < 20
  · exact evalActivity_lt_minEntryCount cv entries now hlen
  · obtain ⟨first, last, ⟨e, he, hef⟩, -, ⟨e', he', hel⟩, -, heq⟩ :=
      evalActivity_eq_scoreTail cv entries now (by omega)
    have hle : last ≤ latest := hel ▸ hmax e' he'
    have hge : earliest ≤ first := hef ▸ hmin e he
    have hsub : Time.Sub last first ≤ 24 * Hour - 1 :=
      Time.Sub_le_of_le last first _ (by omega) (by simp [Hour, minInt64])
    have hlt : Time.Sub last first < 24 * Hour := by omega
    rw [heq, scoreTail]
    split_ifs <;> rfl

/-- Twenty entries within 19 hours score 0. -/
theorem evalActivity_single_day_witness :
    ((∀ e ∈ hourlyEntries, 0 ≤ e.CreatedAt) ∧ (∀ e ∈ hourlyEntries, e.CreatedAt ≤ 19 * Hour) ∧
      (∃ e ∈ hourlyEntries, e.CreatedAt = 0) ∧ (∃ e ∈ hourlyEntries, e.CreatedAt = 19 * Hour) ∧
      19 * Hour - 0 < 24 * Hour) ∧
    evalActivity .indefinite hourlyEntries (20 * Hour) = .ok (.finite 0) :=
  ⟨⟨by decide, by decide, by decide, by decide, by decide⟩,
    evalActivity_single_day _ _ _ 0 (19 * Hour) (by decide) (by decide) (by decide) (by decide)
      (by decide)⟩

/-- C6: `evalActivity` is order-insensitive: a permutation of the entries gives the same
result. -/
theorem evalActivity_perm (cv : F64Overflow) (entries entries' : List ContentEntry) (now : Int)
    (h : entries'.Perm entries) :
    evalActivity cv entries' now = evalActivity cv entries now := by
  have hlen : entries'.length = entries.length := h.length_eq
  by_cases hshort : entries.length < 20
  · rw [evalActivity_lt_minEntryCount cv entries now hshort,
      evalActivity_lt_minEntryCount cv entries' now (by omega)]
  · obtain ⟨f, l, ⟨e1, he1, hf⟩, hfmin, ⟨e2, he2, hl⟩, hlmax, heq⟩ :=
      evalActivity_eq_scoreTail cv entries now (by omega)
    obtain ⟨f', l', ⟨e1', he1', hf'⟩, hfmin', ⟨e2', he2', hl'⟩, hlmax', heq'⟩ :=
      evalActivity_eq_scoreTail cv entries' now (by omega)
    have hff : f' = f := by
      have a := hfmin' e1 (h.mem_iff.mpr he1)
      have b := hfmin e1' (h.mem_iff.mp he1')
      omega
    have hll : l' = l := by
      have a := hlmax' e2 (h.mem_iff.mpr he2)
      have b := hlmax e2' (h.mem_iff.mp he2')
      omega
    have hcount : (fun s : Int => ((entries'.countP (fun e => decide (s < e.CreatedAt)) : Nat) : Int)) =
        (fun s : Int => ((entries.countP (fun e => decide (s < e.CreatedAt)) : Nat) : Int)) := by
      funext s
      rw [h.countP_eq]
    rw [heq, heq', hff, hll, hlen, hcount]

/-- The cadence entries in reverse order score as in their original order. -/
theorem evalActivity_perm_witness :
    (cadenceEntries 0).reverse.Perm (cadenceEntries 0) ∧
      evalActivity .indefinite (cadenceEntries 0).reverse (25 * (24 * Hour)) =
        evalActivity .indefinite (cadenceEntries 0) (25 * (24 * Hour)) :=
  ⟨List.reverse_perm _, evalActivity_perm _ _ _ _ (List.reverse_perm _)⟩

/-- Seven days convert to `float64` exactly. -/
theorem float64OfInt64_week : float64OfInt64 (7 * 24 * Hour) = 7 * 24 * Hour := by decide

/-- The verify period is at least seven days, or the smallest `int64`. -/
theorem verifyPeriodOf_range (cv : F64Overflow) (avgInterval minEntryCount : Int) :
    (7 * 24 * Hour ≤ verifyPeriodOf cv avgInterval minEntryCount ∧
      verifyPeriodOf cv avgInterval minEntryCount ≤ maxInt64) ∨
    verifyPeriodOf cv avgInterval minEntryCount = minInt64 := by
  unfold verifyPeriodOf int64OfFloat64
  rw [float64OfInt64_week]
  have hmax := le_max_right (float64OfInt64 (wrapInt64 (avgInterval * minEntryCount))) (7 * 24 * Hour)
  split_ifs with hr
  · exact Or.inl ⟨hmax, hr.2⟩
  · cases cv
    · exact Or.inr rfl
    · exact Or.inl ⟨by decide, le_refl _⟩

/-- Wrapping leaves an `int64` unchanged. -/
theorem wrapInt64_of_range (x : Int) (h1 : minInt64 ≤ x) (h2 : x ≤ maxInt64) :
    wrapInt64 x = x := by
  unfold wrapInt64
  unfold minInt64 at h1
  unfold maxInt64 at h2
  omega

/-- The recent average interval is not zero. -/
theorem tdiv_verifyPeriod_ne_zero (vp c : Int) (hc : 0 < c) (hcw : c ≤ 7 * 24 * Hour)
    (hvp : (7 * 24 * Hour ≤ vp ∧ vp ≤ maxInt64) ∨ vp = minInt64) :
    wrapInt64 (Int.tdiv vp c) ≠ 0 := by
  have hH : (7 * 24 * Hour : Int) = 604800000000000 := by decide
  rw [hH] at hcw hvp
  rcases hvp with ⟨h1, h2⟩ | h
  · have hq : Int.tdiv vp c = vp / c := Int.tdiv_eq_ediv (by omega) (by omega)
    have hpos : 1 ≤ vp / c := by
      rw [Int.le_ediv_iff_mul_le hc]; omega
    have hle : vp / c ≤ vp := Int.ediv_le_self _ (by omega)
    rw [hq, wrapInt64_of_range _ (by unfold minInt64; omega) (by omega)]
    omega
  · subst h
    have hneg : Int.tdiv minInt64 c = -(Int.tdiv (-minInt64) c) := by
      rw [← Int.neg_tdiv, neg_neg]
    have hq : Int.tdiv (-minInt64) c = (-minInt64) / c :=
      Int.tdiv_eq_ediv (by decide) (by omega)
    have hpos : 1 ≤ (-minInt64) / c := by
      rw [Int.le_ediv_iff_mul_le hc]; unfold minInt64; omega
    have hle : (-minInt64) / c ≤ -minInt64 := Int.ediv_le_self _ (by decide)
    rw [hneg, hq, wrapInt64_of_range _ (by unfold minInt64 at *; omega)
      (by unfold minInt64 maxInt64 at *; omega)]
    omega

/-- The scorer returns a finite number. -/
theorem scoreTail_finite (cv : F64Overflow) (n first last now : Int) (count : Int → Int)
    (hn : 20 ≤ n) (hc0 : ∀ s, 0 ≤ count s) (hc : ∀ s, count s ≤ 7 * 24 * Hour) :
    ∃ q : ℚ, scoreTail cv n first last now count = .ok (.finite q) := by
  unfold scoreTail
  split_ifs with h1 h2
  · exact ⟨0, rfl⟩
  · exact ⟨0, rfl⟩
  · have hd : n - 1 ≠ 0 := by omega
    simp only [Duration.div, hd, if_false, Except.bind]
    split_ifs with h3
    · exact ⟨0, rfl⟩
    · have hcpos : 0 < count (Time.Add now (wrapInt64
          (-(verifyPeriodOf cv (wrapInt64 (Int.tdiv (Time.Sub last first) (n - 1))) 20)))) := by
        have := hc0 (Time.Add now (wrapInt64
          (-(verifyPeriodOf cv (wrapInt64 (Int.tdiv (Time.Sub last first) (n - 1))) 20))))
        omega
      have hne := tdiv_verifyPeriod_ne_zero
        (verifyPeriodOf cv (wrapInt64 (Int.tdiv (Time.Sub last first) (n - 1))) 20) _ hcpos (hc _)
        (verifyPeriodOf_range cv _ 20)
      simp only [Float64.divInt, hne, if_false]
      exact ⟨_, rfl⟩

/-- C9: `evalActivity` and `successRatio.value` always return a finite number: no index is
out of range and no divisor is zero.  The number of entries is at most the number of
nanoseconds in seven days (about `6 * 10^14`, more than a slice of entries can hold). -/
theorem evalActivity_value_total (cv : F64Overflow) (entries : List ContentEntry) (now : Int)
    (sr : successRatio) (hlen : (entries.length : Int) ≤ 7 * 24 * Hour) :
    (∃ q : ℚ, evalActivity cv entries now = .ok (.finite q)) ∧
    (∃ q : ℚ, sr.value = .finite q) := by
  constructor
  · by_cases hshort : entries.length < 20
    · exact ⟨0, evalActivity_lt_minEntryCount cv entries now hshort⟩
    · obtain ⟨first, last, -, -, -, -, heq⟩ :=
        evalActivity_eq_scoreTail cv entries now (by omega)
      rw [heq]
      refine scoreTail_finite cv _ first last now _ (by omega) (fun s => by positivity) ?_
      intro s
      have : entries.countP (fun e => decide (s < e.CreatedAt)) ≤ entries.length :=
        List.countP_le_length _
      omega
  · unfold successRatio.value
    split_ifs with h
    · exact ⟨0, rfl⟩
    · simp only [Float64.divInt, h, if_false]
      exact ⟨_, rfl⟩

/-- The cadence scenario and a fresh accumulator both give a finite number. -/
theorem evalActivity_value_total_witness :
    (((cadenceEntries 0).length : Int) ≤ 7 * 24 * Hour) ∧
    ((∃ q : ℚ, evalActivity .indefinite (cadenceEntries 0) (25 * (24 * Hour)) = .ok (.finite q)) ∧
      (∃ q : ℚ, (newSuccessRatio 0 Hour).value = .finite q)) :=
  ⟨by decide, evalActivity_value_total _ _ _ _ (by decide)⟩

/-- Function `Time.Sub` is the exact difference when it fits. -/
theorem Time.Sub_eq (t u : Int) (h1 : minInt64 ≤ t - u) (h2 : t - u ≤ maxInt64) :
    Time.Sub t u = t - u := by
  unfold Time.Sub
  unfold minInt64 at h1
  unfold maxInt64 at h2
  unfold minInt64 maxInt64
  split_ifs <;> omega

/-- The instants of the cadence scenario. -/
theorem cadence_times (t0 x : Int) :
    x ∈ (List.range 25).map (fun i : Nat => t0 + (i : Int) * (24 * Hour)) ↔
      ∃ i : Nat, i < 25 ∧ x = t0 + (i : Int) * (24 * Hour) := by
  simp only [List.mem_map, List.mem_range]
  constructor
  · rintro ⟨i, hi, rfl⟩; exact ⟨i, hi, rfl⟩
  · rintro ⟨i, hi, rfl⟩; exact ⟨i, hi, rfl⟩

/-- Nineteen cadence entries are created after day 5. -/
theorem cadence_count (t0 : Int) (entries : List ContentEntry)
    (h : (entries.map (fun e => e.CreatedAt)).Perm
      ((List.range 25).map fun i : Nat => t0 + (i : Int) * (24 * Hour))) :
    entries.countP (fun e => decide (t0 + 5 * (24 * Hour) < e.CreatedAt)) = 19 := by
  have h1 : entries.countP (fun e => decide (t0 + 5 * (24 * Hour) < e.CreatedAt)) =
      (entries.map (fun e => e.CreatedAt)).countP (fun x => decide (t0 + 5 * (24 * Hour) < x)) := by
    rw [List.countP_map]; rfl
  rw [h1, h.countP_eq, List.countP_map]
  have h2 : ((fun x : Int => decide (t0 + 5 * (24 * Hour) < x)) ∘
      fun i : Nat => t0 + (i : Int) * (24 * Hour)) = fun i : Nat => decide (5 < i) := by
    funext i
    simp only [Function.comp, Hour]
    congr 1
    apply propext
    constructor <;> intro _ <;> omega
  rw [h2]
  decide

/-- C7: in the cadence scenario (25 entries whose `CreatedAt` are day 0, day 1, ..., day 24,
in any order, and `now` = day 25) the sorted slice starts at day 0 and ends at day 24,
`avgInterval` is one day, `verifyPeriod` is 20 days, `verifyPeriodStart` is day 5, the loop
counts the 19 entries created strictly after day 5, and the returned value
`86400000000000 / 90947368421052` is within 0.001 (indeed within `10^-13`) of 0.95. -/
theorem evalActivity_cadence (cv : F64Overflow) (t0 : Int) (entries : List ContentEntry)
    (h : (entries.map (fun e => e.CreatedAt)).Perm
      ((List.range 25).map fun i : Nat => t0 + (i : Int) * (24 * Hour))) :
    ∃ e0 eN : ContentEntry,
      index (sortSlice entries) 0 = .ok e0 ∧ index (sortSlice entries) (25 - 1) = .ok eN ∧
      e0.CreatedAt = t0 ∧ eN.CreatedAt = t0 + 24 * (24 * Hour) ∧
      Duration.div (Time.Sub eN.CreatedAt e0.CreatedAt) (25 - 1) = .ok (24 * Hour) ∧
      verifyPeriodOf cv (24 * Hour) 20 = 20 * (24 * Hour) ∧
      Time.Add (t0 + 25 * (24 * Hour)) (wrapInt64 (-(20 * (24 * Hour)))) = t0 + 5 * (24 * Hour) ∧
      verifyEntryCountLoop (t0 + 5 * (24 * Hour)) 25 (sortSlice entries) 0 = 19 ∧
      entries.countP (fun e => decide (t0 + 5 * (24 * Hour) < e.CreatedAt)) = 19 ∧
      Duration.div (20 * (24 * Hour)) 19 = .ok 90947368421052 ∧
      evalActivity cv entries (t0 + 25 * (24 * Hour)) =
        .ok (.finite (86400000000000 / 90947368421052)) ∧
      |(86400000000000 / 90947368421052 : ℚ) - 95 / 100| < 1 / 1000 ∧
      |(86400000000000 / 90947368421052 : ℚ) - 95 / 100| < 1 / 10 ^ 13 := by
  have hlen : entries.length = 25 := by
    have := h.length_eq
    simpa using this
  obtain ⟨e0, eN, h0, hN, hm0, hmN, hmin, hmax⟩ := sortSlice_ends entries (by omega)
  have hmemT : ∀ e ∈ entries, ∃ i : Nat, i < 25 ∧ e.CreatedAt = t0 + (i : Int) * (24 * Hour) := by
    intro e he
    exact (cadence_times t0 _).mp (h.mem_iff.mp (List.mem_map_of_mem _ he))
  have hexT : ∀ i : Nat, i < 25 → ∃ e ∈ entries, e.CreatedAt = t0 + (i : Int) * (24 * Hour) := by
    intro i hi
    have := h.mem_iff.mpr ((cadence_times t0 _).mpr ⟨i, hi, rfl⟩)
    obtain ⟨e, he, hee⟩ := List.mem_map.mp this
    exact ⟨e, he, hee⟩
  have hH : Hour = 3600000000000 := rfl
  have he0 : e0.CreatedAt = t0 := by
    obtain ⟨i, hi, hie⟩ := hmemT e0 hm0
    obtain ⟨e, he, hee⟩ := hexT 0 (by omega)
    have := hmin e he
    rw [hH] at hie hee
    omega
  have heN : eN.CreatedAt = t0 + 24 * (24 * Hour) := by
    obtain ⟨i, hi, hie⟩ := hmemT eN hmN
    obtain ⟨e, he, hee⟩ := hexT 24 (by omega)
    have := hmax e he
    rw [hH] at hie hee ⊢
    push_cast at hee
    omega
  have hcount := cadence_count t0 entries h
  have hsub1 : Time.Sub eN.CreatedAt e0.CreatedAt = 24 * (24 * Hour) := by
    rw [he0, heN, Time.Sub_eq _ _ (by unfold minInt64; rw [hH]; omega)
      (by unfold maxInt64; rw [hH]; omega)]
    omega
  have hsub2 : Time.Sub (t0 + 25 * (24 * Hour)) eN.CreatedAt = 24 * Hour := by
    rw [heN, Time.Sub_eq _ _ (by unfold minInt64; rw [hH]; omega)
      (by unfold maxInt64; rw [hH]; omega)]
    omega
  have hvp : verifyPeriodOf cv (24 * Hour) 20 = 20 * (24 * Hour) := by cases cv <;> decide
  have hstart : Time.Add (t0 + 25 * (24 * Hour)) (wrapInt64 (-(20 * (24 * Hour)))) =
      t0 + 5 * (24 * Hour) := by
    have : wrapInt64 (-(20 * (24 * Hour))) = -(20 * (24 * Hour)) := by decide
    rw [this, Time.Add, hH]
    omega
  have hdiv1 : Duration.div (24 * (24 * Hour)) (25 - 1) = .ok (24 * Hour) := by rfl
  have hdiv2 : Duration.div (20 * (24 * Hour)) 19 = .ok 90947368421052 := by rfl
  have hloop : verifyEntryCountLoop (t0 + 5 * (24 * Hour)) 25 (sortSlice entries) 0 = 19 := by
    have := verifyEntryCountLoop_sortSlice entries (t0 + 5 * (24 * Hour))
    rw [hlen, hcount] at this
    exact this
  have hN' : index (sortSlice entries) (25 - 1) = .ok eN := by
    have : ((entries.length : Int) - 1) = 25 - 1 := by rw [hlen]; rfl
    rw [← this]; exact hN
  refine ⟨e0, eN, h0, hN', he0, heN, ?_, hvp, hstart, hloop, hcount, hdiv2, ?_, ?_, ?_⟩
  · rw [hsub1]; exact hdiv1
  · rw [evalActivity_eq_scoreTail_of_index cv entries _ e0 eN (by omega) h0 hN]
    unfold scoreTail
    rw [hsub1, hsub2, hlen]
    have c1 : ¬ (24 * Hour > 30 * 24 * Hour) := by decide
    have c2 : ¬ (24 * (24 * Hour) < 24 * Hour) := by decide
    rw [if_neg c1, if_neg c2]
    have hdiv1' : Duration.div (24 * (24 * Hour)) (((25 : Nat) : Int) - 1) = .ok (24 * Hour) := by
      rfl
    rw [hdiv1']
    simp only [Except.bind, hvp, hstart, hcount]
    have hdiv2' : Duration.div (20 * (24 * Hour)) ((19 : Nat) : Int) = .ok 90947368421052 := by
      rfl
    rw [hdiv2']
    simp [Float64.divInt, Hour]
  · rw [abs_lt]; constructor <;> norm_num
  · rw [abs_lt]; constructor <;> norm_num

/-- The cadence scenario with day 0 at instant 0. -/
theorem evalActivity_cadence_witness :
    ((cadenceEntries 0).map (fun e => e.CreatedAt)).Perm
      ((List.range 25).map fun i : Nat => (0 : Int) + (i : Int) * (24 * Hour)) ∧
    evalActivity .indefinite (cadenceEntries 0) (0 + 25 * (24 * Hour)) =
        .ok (.finite (86400000000000 / 90947368421052)) := by
  have hp : ((cadenceEntries 0).map (fun e => e.CreatedAt)).Perm
      ((List.range 25).map fun i : Nat => (0 : Int) + (i : Int) * (24 * Hour)) :=
    List.Perm.of_eq (by decide)
  obtain ⟨_, _, _, _, _, _, _, _, _, _, _, _, hv, _, _⟩ :=
    evalActivity_cadence .indefinite 0 (cadenceEntries 0) hp
  exact ⟨hp, hv⟩

/-- C8: the activity score is not confined to `[0, 1)`: one entry followed, forty days
later, by forty entries created together, scored at that moment, gives exactly 2. -/
theorem evalActivity_exceeds_one (cv : F64Overflow) :
    ∃ (entries : List ContentEntry) (now : Int) (q : ℚ),
      evalActivity cv entries now = .ok (.finite q) ∧ 1 < q := by
  refine ⟨burstEntries, 40 * (24 * Hour), 2, ?_, by norm_num⟩
  have h : evalActivity cv burstEntries (40 * (24 * Hour)) =
      .ok (Float64.divInt 86400000000000 43200000000000) := by
    cases cv <;> rfl
  rw [h]
  simp only [Float64.divInt]
  norm_num

/-! ## The source-record loop -/

/-- One iteration keeps `SourceCount` and lowers `AddedAt` to an earlier `CreatedAt`. -/
theorem sourceStep_fields (now : Int) (summary : SummaryData) (src : ContentSource) :
    (sourceStep now summary src).SourceCount = summary.SourceCount ∧
    (sourceStep now summary src).AddedAt =
      if src.CreatedAt < summary.AddedAt then src.CreatedAt else summary.AddedAt := by
  unfold sourceStep
  simp only [Time.Before]
  split_ifs <;> simp_all

/-- After the loop `AddedAt` is the least of its initial value and the `CreatedAt` seen. -/
theorem sourceStep_foldl (now : Int) (sources : List ContentSource) (summary : SummaryData) :
    (sources.foldl (sourceStep now) summary).SourceCount = summary.SourceCount ∧
    (sources.foldl (sourceStep now) summary).AddedAt ≤ summary.AddedAt ∧
    (∀ src ∈ sources, (sources.foldl (sourceStep now) summary).AddedAt ≤ src.CreatedAt) ∧
    ((sources.foldl (sourceStep now) summary).AddedAt = summary.AddedAt ∨
      ∃ src ∈ sources, (sources.foldl (sourceStep now) summary).AddedAt = src.CreatedAt) := by
  induction sources generalizing summary with
  | nil => simp
  | cons src rest ih =>
    obtain ⟨hc, ha⟩ := sourceStep_fields now summary src
    obtain ⟨i1, i2, i3, i4⟩ := ih (sourceStep now summary src)
    simp only [List.foldl_cons]
    rw [hc] at i1
    rw [ha] at i2 i4
    refine ⟨i1, ?_, ?_, ?_⟩
    · split_ifs at i2 <;> omega
    · intro s hs
      rcases List.mem_cons.mp hs with rfl | hs
      · split_ifs at i2 <;> omega
      · exact i3 s hs
    · rcases i4 with h | ⟨s, hs, h⟩
      · split_ifs at h with hlt
        · exact Or.inr ⟨src, List.mem_cons_self _ _, h⟩
        · exact Or.inl h
      · exact Or.inr ⟨s, List.mem_cons_of_mem _ hs, h⟩

/-- The loop yields the number of records and the earliest `CreatedAt`. -/
theorem sourceLoop_spec (now : Int) (sources : List ContentSource) (h : sources ≠ []) :
    ∃ summary : SummaryData, sourceLoop now sources = .ok summary ∧
      summary.SourceCount = sources.length ∧
      (∃ src ∈ sources, summary.AddedAt = src.CreatedAt) ∧
      (∀ src ∈ sources, summary.AddedAt ≤ src.CreatedAt) := by
  obtain ⟨s0, rest, rfl⟩ := List.exists_cons_of_ne_nil h
  have hidx : index (s0 :: rest) 0 = .ok s0 := by simp [index]
  unfold sourceLoop
  rw [hidx]
  simp only [Except.bind]
  obtain ⟨i1, i2, i3, i4⟩ := sourceStep_foldl now (s0 :: rest)
    { SummaryData.zero with SourceCount := (s0 :: rest).length, AddedAt := s0.CreatedAt }
  refine ⟨_, rfl, i1, ?_, i3⟩
  rcases i4 with h | h
  · exact ⟨s0, List.mem_cons_self _ _, h⟩
  · exact h

/-- C10: for a non-empty list of source records the loop sets `SourceCount` to the number
of records and `AddedAt` to the minimum `CreatedAt` over all of them (a `CreatedAt` of the
list that is at most every other); both are the same for every reordering of the list. -/
theorem sourceLoop_count_addedAt (now : Int) (sources : List ContentSource)
    (h : sources ≠ []) :
    ∃ summary : SummaryData, sourceLoop now sources = .ok summary ∧
      summary.SourceCount = sources.length ∧
      (∃ src ∈ sources, summary.AddedAt = src.CreatedAt) ∧
      (∀ src ∈ sources, summary.AddedAt ≤ src.CreatedAt) ∧
      ∀ sources' : List ContentSource, sources'.Perm sources →
        ∃ summary' : SummaryData, sourceLoop now sources' = .ok summary' ∧
          summary'.SourceCount = summary.SourceCount ∧ summary'.AddedAt = summary.AddedAt := by
  obtain ⟨summary, hs, hc, ⟨m, hm, hma⟩, hmin⟩ := sourceLoop_spec now sources h
  refine ⟨summary, hs, hc, ⟨m, hm, hma⟩, hmin, ?_⟩
  intro sources' hp
  have hne : sources' ≠ [] := by
    intro he
    rw [he] at hp
    exact h (List.perm_nil.mp hp.symm ▸ rfl)
  obtain ⟨summary', hs', hc', ⟨m', hm', hma'⟩, hmin'⟩ := sourceLoop_spec now sources' hne
  refine ⟨summary', hs', ?_, ?_⟩
  · rw [hc', hc, hp.length_eq]
  · have a := hmin' m (hp.mem_iff.mpr hm)
    have b := hmin m' (hp.mem_iff.mp hm')
    omega

/-- Three records whose earliest was created at hour 2. -/
theorem sourceLoop_count_addedAt_witness :
    threeSources ≠ [] ∧
    ∃ summary : SummaryData, sourceLoop (100 * Hour) threeSources = .ok summary ∧
      summary.SourceCount = 3 ∧ summary.AddedAt = 2 * Hour := by
  refine ⟨by decide, ?_⟩
  obtain ⟨summary, hs, hc, ⟨m, hm, hma⟩, hmin, -⟩ :=
    sourceLoop_count_addedAt (100 * Hour) threeSources (by decide)
  refine ⟨summary, hs, hc, ?_⟩
  have h1 := hmin ⟨"source", none, "processing", 2 * Hour, 99 * Hour⟩ (by decide)
  have h2 : ∀ src ∈ threeSources, 2 * Hour ≤ src.CreatedAt := by decide
  have h3 := h2 m hm
  simp only at h1
  omega

/-! ## Flags set by the source-record loop -/

/-- Comparing `Time.Sub` with a threshold that is an `int64` compares the exact difference. -/
theorem Time.Sub_gt_iff (t u d : Int) (h1 : minInt64 ≤ d) (h2 : d < maxInt64) :
    Time.Sub t u > d ↔ t - u > d := by
  unfold Time.Sub
  unfold minInt64 at h1
  unfold maxInt64 at h2
  unfold minInt64 maxInt64
  split_ifs <;> omega

/-- One iteration sets the flags from the record and leaves the entry-derived fields alone. -/
theorem sourceStep_flags (now : Int) (summary : SummaryData) (src : ContentSource) :
    ((sourceStep now summary src).Enabled = true ↔
      (summary.Enabled = true ∨ src.Status = "processing")) ∧
    ((sourceStep now summary src).StalledProcessing = true ↔
      (summary.StalledProcessing = true ∨
        (src.Status = "processing" ∧ now - src.UpdatedAt > 24 * Hour))) ∧
    ((sourceStep now summary src).EngagementCheck = true ↔
      (summary.EngagementCheck = true ∨ (engagementThreshold src.Options).1 > 0)) ∧
    (sourceStep now summary src).EntryCount = summary.EntryCount ∧
    (sourceStep now summary src).CompletedCount = summary.CompletedCount ∧
    (sourceStep now summary src).ErrorCount = summary.ErrorCount ∧
    (sourceStep now summary src).DaysSinceLastEntry = summary.DaysSinceLastEntry ∧
    (sourceStep now summary src).AvgEntriesDay = summary.AvgEntriesDay ∧
    (sourceStep now summary src).Activity = summary.Activity ∧
    (sourceStep now summary src).LLMEnrichedRatio = summary.LLMEnrichedRatio := by
  have hsub : Time.Sub now src.UpdatedAt > stalledProcessingThreshold ↔
      now - src.UpdatedAt > 24 * Hour := by
    unfold stalledProcessingThreshold
    exact Time.Sub_gt_iff now src.UpdatedAt (24 * Hour) (by decide) (by decide)
  unfold sourceStep
  simp only [hsub]
  refine ⟨?_, ?_, ?_, ?_, ?_, ?_, ?_, ?_, ?_, ?_⟩ <;> split_ifs <;> simp_all

/-- Flags and entry-derived fields after the loop over the records. -/
theorem sourceStep_foldl_flags (now : Int) (sources : List ContentSource) (summary : SummaryData) :
    ((sources.foldl (sourceStep now) summary).Enabled = true ↔
      (summary.Enabled = true ∨ ∃ src ∈ sources, src.Status = "processing")) ∧
    ((sources.foldl (sourceStep now) summary).StalledProcessing = true ↔
      (summary.StalledProcessing = true ∨
        ∃ src ∈ sources, src.Status = "processing" ∧ now - src.UpdatedAt > 24 * Hour)) ∧
    ((sources.foldl (sourceStep now) summary).EngagementCheck = true ↔
      (summary.EngagementCheck = true ∨
        ∃ src ∈ sources, (engagementThreshold src.Options).1 > 0)) ∧
    (sources.foldl (sourceStep now) summary).EntryCount = summary.EntryCount ∧
    (sources.foldl (sourceStep now) summary).CompletedCount = summary.CompletedCount ∧
    (sources.foldl (sourceStep now) summary).ErrorCount = summary.ErrorCount ∧
    (sources.foldl (sourceStep now) summary).DaysSinceLastEntry = summary.DaysSinceLastEntry ∧
    (sources.foldl (sourceStep now) summary).AvgEntriesDay = summary.AvgEntriesDay ∧
    (sources.foldl (sourceStep now) summary).Activity = summary.Activity ∧
    (sources.foldl (sourceStep now) summary).LLMEnrichedRatio = summary.LLMEnrichedRatio := by
  induction sources generalizing summary with
  | nil => simp
  | cons src rest ih =>
    obtain ⟨a1, a2, a3, a4, a5, a6, a7, a8, a9, a10⟩ := sourceStep_flags now summary src
    obtain ⟨b1, b2, b3, b4, b5, b6, b7, b8, b9, b10⟩ := ih (sourceStep now summary src)
    simp only [List.foldl_cons]
    refine ⟨?_, ?_, ?_, b4.trans a4, b5.trans a5, b6.trans a6, b7.trans a7, b8.trans a8,
      b9.trans a9, b10.trans a10⟩
    · rw [b1, a1]; simp only [List.mem_cons, exists_eq_or_imp]; exact or_assoc
    · rw [b2, a2]; simp only [List.mem_cons, exists_eq_or_imp]; exact or_assoc
    · rw [b3, a3]; simp only [List.mem_cons, exists_eq_or_imp]; exact or_assoc

/-- The summary after the loop over a non-empty slice of records. -/
theorem sourceLoop_flags (now : Int) (sources : List ContentSource) (h : sources ≠ []) :
    ∃ summary : SummaryData, sourceLoop now sources = .ok summary ∧
      (summary.Enabled = true ↔ ∃ src ∈ sources, src.Status = "processing") ∧
      (summary.StalledProcessing = true ↔
        ∃ src ∈ sources, src.Status = "processing" ∧ now - src.UpdatedAt > 24 * Hour) ∧
      (summary.EngagementCheck = true ↔
        ∃ src ∈ sources, (engagementThreshold src.Options).1 > 0) ∧
      summary.EntryCount = 0 ∧ summary.CompletedCount = 0 ∧ summary.ErrorCount = 0 ∧
      summary.DaysSinceLastEntry = .finite 0 ∧ summary.AvgEntriesDay = .finite 0 ∧
      summary.Activity = .finite 0 ∧ summary.LLMEnrichedRatio = .finite 0 := by
  obtain ⟨s0, rest, rfl⟩ := List.exists_cons_of_ne_nil h
  have hidx : index (s0 :: rest) 0 = .ok s0 := by simp [index]
  unfold sourceLoop
  rw [hidx]
  simp only [Except.bind]
  obtain ⟨b1, b2, b3, b4, b5, b6, b7, b8, b9, b10⟩ := sourceStep_foldl_flags now (s0 :: rest)
    { SummaryData.zero with SourceCount := (s0 :: rest).length, AddedAt := s0.CreatedAt }
  refine ⟨_, rfl, ?_, ?_, ?_, b4, b5, b6, b7, b8, b9, b10⟩
  · rw [b1]; simp [SummaryData.zero]
  · rw [b2]; simp [SummaryData.zero]
  · rw [b3]; simp [SummaryData.zero]

/-- C11: for every list of source records, whenever the source-record loop yields a summary
(it does for every non-empty list; on an empty one `sources[0]` panics), the summary has
`StalledProcessing` true exactly when some record has status `processing` and
`now - UpdatedAt` is strictly more than 24 hours; a single processing record updated 25
hours ago gives true, one updated 23 hours ago or exactly 24 hours ago gives false, and so
does a record that is not processing, whatever its age. -/
theorem sourceLoop_stalledProcessing (now : Int) (sources : List ContentSource) :
    (∀ summary : SummaryData, sourceLoop now sources = .ok summary →
      (summary.StalledProcessing = true ↔
        ∃ src ∈ sources, src.Status = "processing" ∧ now - src.UpdatedAt > 24 * Hour)) ∧
    (sources ≠ [] → ∃ summary : SummaryData, sourceLoop now sources = .ok summary) ∧
    (sources = [] → sourceLoop now sources = .error .indexOutOfRange) ∧
    ∀ src : ContentSource, ∃ summary : SummaryData, sourceLoop now [src] = .ok summary ∧
      (src.Status = "processing" → src.UpdatedAt = now - 25 * Hour →
        summary.StalledProcessing = true) ∧
      (src.Status = "processing" → src.UpdatedAt = now - 23 * Hour →
        summary.StalledProcessing = false) ∧
      (src.Status = "processing" → src.UpdatedAt = now - 24 * Hour →
        summary.StalledProcessing = false) ∧
      (src.Status ≠ "processing" → summary.StalledProcessing = false) := by
  refine ⟨?_, ?_, ?_, ?_⟩
  · intro summary hsum
    by_cases h : sources = []
    · subst h
      exact absurd hsum (by simp [sourceLoop, index, Except.bind])
    · obtain ⟨s, hs, -, hst, -⟩ := sourceLoop_flags now sources h
      rw [hs] at hsum
      rw [← Except.ok.inj hsum]
      exact hst
  · intro h
    obtain ⟨s, hs, -⟩ := sourceLoop_flags now sources h
    exact ⟨s, hs⟩
  · intro h
    subst h
    rfl
  · intro src
    obtain ⟨summary, hs, -, hst, -⟩ := sourceLoop_flags now [src] (by simp)
    have hH : Hour = 3600000000000 := rfl
    simp only [List.mem_singleton, exists_eq_left] at hst
    refine ⟨summary, hs, ?_, ?_, ?_, ?_⟩
    · intro hp hu
      rw [hst]
      exact ⟨hp, by rw [hu, hH]; omega⟩
    · intro hp hu
      rw [← Bool.not_eq_true, hst]
      rintro ⟨-, hgt⟩
      rw [hu, hH] at hgt; omega
    · intro hp hu
      rw [← Bool.not_eq_true, hst]
      rintro ⟨-, hgt⟩
      rw [hu, hH] at hgt; omega
    · intro hp
      rw [← Bool.not_eq_true, hst]
      rintro ⟨hp', -⟩
      exact hp hp'

/-- Of the three records, the second is processing and was updated one hour before `now`,
the third is processing and was updated 90 hours before `now`. -/
theorem sourceLoop_stalledProcessing_witness :
    ∃ summary : SummaryData, sourceLoop (100 * Hour) threeSources = .ok summary ∧
      summary.StalledProcessing = true := by
  obtain ⟨hiff, hex, -, -⟩ := sourceLoop_stalledProcessing (100 * Hour) threeSources
  obtain ⟨summary, hs⟩ := hex (by decide)
  refine ⟨summary, hs, (hiff summary hs).mpr ?_⟩
  exact ⟨⟨"source", some 3, "processing", 9 * Hour, 10 * Hour⟩, by decide, by decide, by decide⟩

/-! ## The invariant of the accumulator -/

/-- The method `add` keeps the window, and keeps `0 ≤ successCount ≤ totalCount`. -/
theorem successRatio_add_invariant (sr : successRatio) (t : Int) (success : Bool) :
    (sr.add t success).startDate = sr.startDate ∧ (sr.add t success).endDate = sr.endDate ∧
    (0 ≤ sr.successCount ∧ sr.successCount ≤ sr.totalCount →
      0 ≤ (sr.add t success).successCount ∧
        (sr.add t success).successCount ≤ (sr.add t success).totalCount) := by
  by_cases hin : sr.startDate < t ∧ t < sr.endDate
  · rw [successRatio_add_inside sr t success hin.1 hin.2]
    refine ⟨rfl, rfl, ?_⟩
    rintro ⟨h1, h2⟩
    cases success <;> simp <;> omega
  · rw [successRatio_add_outside sr t success hin]
    exact ⟨rfl, rfl, id⟩

/-- With `0 ≤ successCount ≤ totalCount` the method `value` gives a number in `[0, 1]`. -/
theorem successRatio_value_unit (sr : successRatio)
    (h : 0 ≤ sr.successCount ∧ sr.successCount ≤ sr.totalCount) :
    ∃ q : ℚ, sr.value = .finite q ∧ 0 ≤ q ∧ q ≤ 1 := by
  unfold successRatio.value
  split_ifs with h0
  · exact ⟨0, rfl, le_refl _, by norm_num⟩
  · simp only [Float64.divInt, h0, if_false]
    have hpos : (0 : ℚ) < (sr.totalCount : ℚ) := by
      have : 0 < sr.totalCount := by omega
      exact_mod_cast this
    refine ⟨_, rfl, ?_, ?_⟩
    · exact div_nonneg (by exact_mod_cast h.1) hpos.le
    · rw [div_le_one hpos]
      exact_mod_cast h.2

/-- C19: starting from `newSuccessRatio(start, end)`, after any sequence of `add` calls the
accumulator satisfies `totalCount ≥ successCount ≥ 0`, `value()` lies in `[0, 1]`, and the
window is the one it was created with; every single `add` preserves
`totalCount ≥ successCount ≥ 0` and leaves `startDate` and `endDate` unchanged. -/
theorem successRatio_invariant (startDate endDate : Int) (l : List (Int × Bool)) :
    (0 ≤ (l.foldl (fun sr p => sr.add p.1 p.2) (newSuccessRatio startDate endDate)).successCount ∧
      (l.foldl (fun sr p => sr.add p.1 p.2) (newSuccessRatio startDate endDate)).successCount ≤
        (l.foldl (fun sr p => sr.add p.1 p.2) (newSuccessRatio startDate endDate)).totalCount) ∧
    (∃ q : ℚ, (l.foldl (fun sr p => sr.add p.1 p.2) (newSuccessRatio startDate endDate)).value =
      .finite q ∧ 0 ≤ q ∧ q ≤ 1) ∧
    (l.foldl (fun sr p => sr.add p.1 p.2) (newSuccessRatio startDate endDate)).startDate =
      startDate ∧
    (l.foldl (fun sr p => sr.add p.1 p.2) (newSuccessRatio startDate endDate)).endDate =
      endDate ∧
    (∀ (sr : successRatio) (t : Int) (success : Bool),
      0 ≤ sr.successCount ∧ sr.successCount ≤ sr.totalCount →
        0 ≤ (sr.add t success).successCount ∧
          (sr.add t success).successCount ≤ (sr.add t success).totalCount) ∧
    (∀ (sr : successRatio) (t : Int) (success : Bool),
      (sr.add t success).startDate = sr.startDate ∧ (sr.add t success).endDate = sr.endDate) := by
  have hinv : ∀ (l : List (Int × Bool)) (sr : successRatio),
      0 ≤ sr.successCount ∧ sr.successCount ≤ sr.totalCount →
      0 ≤ (l.foldl (fun sr p => sr.add p.1 p.2) sr).successCount ∧
        (l.foldl (fun sr p => sr.add p.1 p.2) sr).successCount ≤
          (l.foldl (fun sr p => sr.add p.1 p.2) sr).totalCount := by
    intro l
    induction l with
    | nil => intro sr h; exact h
    | cons p l ih =>
      intro sr h
      exact ih _ ((successRatio_add_invariant sr p.1 p.2).2.2 h)
  have h0 := hinv l (newSuccessRatio startDate endDate) (by simp [newSuccessRatio])
  obtain ⟨hs, he, -, -⟩ := successRatio_foldl_add l (newSuccessRatio startDate endDate)
  exact ⟨h0, successRatio_value_unit _ h0, hs, he,
    fun sr t b => (successRatio_add_invariant sr t b).2.2,
    fun sr t b => ⟨(successRatio_add_invariant sr t b).1, (successRatio_add_invariant sr t b).2.1⟩⟩

/-! ## `getEntryData` -/

/-- One iteration of the loop over the entries, field by field. -/
theorem entryStep_fields (st : EntryLoopState) (e : ContentEntry) :
    (entryStep st e).summary =
      { st.summary with
        CompletedCount := st.summary.CompletedCount + (if e.Status = "completed" then 1 else 0),
        ErrorCount := st.summary.ErrorCount + (if e.RejectReason = "generic_error" then 1 else 0) } ∧
    (entryStep st e).activityEntries =
      st.activityEntries ++
        (if e.Status = "completed" ∧ e.EntryMetadata.Order = 0 then [e] else []) ∧
    (entryStep st e).llmSuccess =
      (if e.Status = "completed" then
        st.llmSuccess.add e.CreatedAt e.EntryMetadata.Enriched.isSome
      else st.llmSuccess) := by
  unfold entryStep
  by_cases h1 : e.Status = "completed" <;> by_cases h2 : e.EntryMetadata.Order = 0 <;>
    by_cases h3 : e.RejectReason = "generic_error" <;> simp [h1, h2, h3]

/-- The loop over the entries: counters, activity-eligible entries and accumulator. -/
theorem entryStep_foldl (entries : List ContentEntry) (st : EntryLoopState) :
    (entries.foldl entryStep st).summary =
      { st.summary with
        CompletedCount := st.summary.CompletedCount +
          entries.countP (fun e => decide (e.Status = "completed")),
        ErrorCount := st.summary.ErrorCount +
          entries.countP (fun e => decide (e.RejectReason = "generic_error")) } ∧
    (entries.foldl entryStep st).activityEntries =
      st.activityEntries ++
        entries.filter (fun e => decide (e.Status = "completed" ∧ e.EntryMetadata.Order = 0)) ∧
    (entries.foldl entryStep st).llmSuccess =
      ((entries.filter (fun e => decide (e.Status = "completed"))).map
        (fun e => (e.CreatedAt, e.EntryMetadata.Enriched.isSome))).foldl
        (fun sr p => sr.add p.1 p.2) st.llmSuccess := by
  induction entries generalizing st with
  | nil => simp
  | cons e es ih =>
    obtain ⟨a1, a2, a3⟩ := entryStep_fields st e
    obtain ⟨b1, b2, b3⟩ := ih (entryStep st e)
    simp only [List.foldl_cons]
    refine ⟨?_, ?_, ?_⟩
    · rw [b1, a1]
      by_cases h1 : e.Status = "completed" <;> by_cases h3 : e.RejectReason = "generic_error" <;>
        simp [h1, h3, List.countP_cons, Nat.add_assoc, Nat.add_comm]
    · rw [b2, a2]
      by_cases h : e.Status = "completed" ∧ e.EntryMetadata.Order = 0
      · simp [h, List.filter_cons]
      · simp only [if_neg h, List.append_nil]
        rw [List.filter_cons_of_neg (by simpa using h)]
    · rw [b3, a3]
      by_cases h1 : e.Status = "completed"
      · simp [h1, List.filter_cons]
      · simp [h1, List.filter_cons]

/-- With at least 20 entries the scorer does not panic. -/
theorem scoreTail_ok (cv : F64Overflow) (n first last now : Int) (count : Int → Int)
    (hn : 20 ≤ n) : ∃ f : Float64, scoreTail cv n first last now count = .ok f := by
  unfold scoreTail
  split_ifs with h1 h2
  · exact ⟨_, rfl⟩
  · exact ⟨_, rfl⟩
  · have hd : n - 1 ≠ 0 := by omega
    simp only [Duration.div, hd, if_false, Except.bind]
    split_ifs with h3
    · exact ⟨_, rfl⟩
    · exact ⟨_, rfl⟩

/-- The function `evalActivity` does not panic. -/
theorem evalActivity_ok (cv : F64Overflow) (entries : List ContentEntry) (now : Int) :
    ∃ f : Float64, evalActivity cv entries now = .ok f := by
  by_cases hshort : entries.length < 20
  · exact ⟨_, evalActivity_lt_minEntryCount cv entries now hshort⟩
  · obtain ⟨first, last, -, -, -, -, heq⟩ := evalActivity_eq_scoreTail cv entries now (by omega)
    rw [heq]
    exact scoreTail_ok cv _ first last now _ (by omega)

/-- The start of the enrichment window is the later of the fixed date and `now` minus 30
days. -/
theorem latestDate_window (now : Int) :
    latestDate llmEnrichStartDate [Time.Add now (wrapInt64 (-llmEnrichEvalPeriod))] =
      max llmEnrichStartDate (now - 30 * 24 * Hour) := by
  have hw : wrapInt64 (-llmEnrichEvalPeriod) = -(30 * 24 * Hour) := by decide
  rw [hw]
  unfold latestDate Time.Add Time.After
  simp only [List.foldl_cons, List.foldl_nil]
  have e : now + -(30 * 24 * Hour) = now - 30 * 24 * Hour := by ring
  rw [e]
  by_cases h : llmEnrichStartDate < now - 30 * 24 * Hour
  · simp only [h, decide_True, if_true]
    exact (max_eq_right h.le).symm
  · simp only [h, decide_False, Bool.false_eq_true, if_false]
    exact (max_eq_left (not_lt.mp h)).symm

/-- Indexing the last element of a non-empty slice. -/
theorem index_last {α : Type} (xs : List α) (h : xs ≠ []) :
    index xs ((xs.length : Int) - 1) = .ok (xs.getLast h) := by
  have hpos : 0 < xs.length := List.length_pos.mpr h
  have hcast : ((xs.length : Int) - 1) = ((xs.length - 1 : Nat) : Int) := by omega
  rw [hcast, index_ok_of_lt xs (xs.length - 1) (by omega), List.getLast_eq_getElem]
  rfl

/-- What `getEntryData` does to the summary when the query returns at least one entry. -/
theorem getEntryData_fields (cv : F64Overflow) (entries : List ContentEntry)
    (summary : SummaryData) (now : Int) (hne : entries ≠ []) :
    ∃ s : SummaryData, getEntryData cv (.ok entries) summary now = .ok (s, none) ∧
      s.SourceCount = summary.SourceCount ∧ s.Enabled = summary.Enabled ∧
      s.StalledProcessing = summary.StalledProcessing ∧
      s.EngagementCheck = summary.EngagementCheck ∧ s.AddedAt = summary.AddedAt ∧
      s.EntryCount = entries.length ∧
      s.CompletedCount = summary.CompletedCount +
        entries.countP (fun e => decide (e.Status = "completed")) ∧
      s.ErrorCount = summary.ErrorCount +
        entries.countP (fun e => decide (e.RejectReason = "generic_error")) ∧
      s.DaysSinceLastEntry = .finite (daysOf (Time.Sub now (entries.getLast hne).CreatedAt)) ∧
      s.AvgEntriesDay =
        (if Time.Sub (entries.getLast hne).CreatedAt summary.AddedAt > 0 then
          .finite (avgEntriesDay
            (entries.filter (fun e =>
                decide (e.Status = "completed" ∧ e.EntryMetadata.Order = 0))).length
            (Time.Sub (entries.getLast hne).CreatedAt summary.AddedAt))
        else summary.AvgEntriesDay) ∧
      (if 0 < (entries.filter (fun e =>
            decide (e.Status = "completed" ∧ e.EntryMetadata.Order = 0))).length then
          evalActivity cv entries now = .ok s.Activity
        else s.Activity = summary.Activity) ∧
      s.LLMEnrichedRatio =
        (((entries.filter (fun e => decide (e.Status = "completed"))).map
          (fun e => (e.CreatedAt, e.EntryMetadata.Enriched.isSome))).foldl
          (fun sr p => sr.add p.1 p.2)
          (newSuccessRatio (max llmEnrichStartDate (now - 30 * 24 * Hour)) now)).value := by
  have hlen : entries.length ≠ 0 := fun h => hne (List.length_eq_zero.mp h)
  obtain ⟨f, hf⟩ := evalActivity_ok cv entries now
  unfold getEntryData
  simp only [hlen, if_false, index_last entries hne, Except.bind, latestDate_window]
  generalize hst0 : ({ summary := _, activityEntries := [], llmSuccess := _ } : EntryLoopState) = st0
  obtain ⟨b1, b2, b3⟩ := entryStep_foldl entries st0
  rw [b1, b2, b3]
  subst hst0
  simp only [List.nil_append, gt_iff_lt]
  by_cases hn : 0 < (entries.filter (fun e =>
      decide (e.Status = "completed" ∧ e.EntryMetadata.Order = 0))).length
  · simp only [hn, if_true, hf]
    by_cases hd : 0 < Time.Sub (entries.getLast hne).CreatedAt summary.AddedAt
    · simp only [hd, if_true]
      exact ⟨_, rfl, rfl, rfl, rfl, rfl, rfl, rfl, rfl, rfl, rfl, rfl, rfl, rfl⟩
    · simp only [hd, if_false]
      exact ⟨_, rfl, rfl, rfl, rfl, rfl, rfl, rfl, rfl, rfl, rfl, rfl, rfl, rfl⟩
  · simp only [hn, if_false]
    by_cases hd : 0 < Time.Sub (entries.getLast hne).CreatedAt summary.AddedAt
    · simp only [hd, if_true]
      exact ⟨_, rfl, rfl, rfl, rfl, rfl, rfl, rfl, rfl, rfl, rfl, rfl, rfl, rfl⟩
    · simp only [hd, if_false]
      exact ⟨_, rfl, rfl, rfl, rfl, rfl, rfl, rfl, rfl, rfl, rfl, rfl, rfl, rfl⟩



/-! ## The body of the loop over `sourceIDs` -/

/-- A source none of whose records is processing: the row carries the summary of the
source-record loop. -/
theorem sourceBody_of_disabled (cv : F64Overflow) (now : Int) (sid : String)
    (sources : List ContentSource) (entriesQuery : Except String (List ContentEntry))
    (s0 : SummaryData) (h0 : sourceLoop now sources = .ok s0) (hen : s0.Enabled = false) :
    sourceBody cv now sid (.ok sources) entriesQuery =
      .ok { SourceID := sid, Summary := s0, CreatedAt := now, UpdatedAt := now } := by
  unfold sourceBody
  simp only [h0, Except.bind, hen, Bool.false_eq_true, if_false]

/-- A source with a processing record: the row carries the summary that `getEntryData`
leaves, whether it returns an error or not. -/
theorem sourceBody_of_enabled (cv : F64Overflow) (now : Int) (sid : String)
    (sources : List ContentSource) (entriesQuery : Except String (List ContentEntry))
    (s0 : SummaryData) (r : SummaryData × Option GoError)
    (h0 : sourceLoop now sources = .ok s0) (hen : s0.Enabled = true)
    (hr : getEntryData cv entriesQuery s0 now = .ok r) :
    sourceBody cv now sid (.ok sources) entriesQuery =
      .ok { SourceID := sid, Summary := r.1, CreatedAt := now, UpdatedAt := now } := by
  unfold sourceBody
  simp only [h0, Except.bind, hen, if_true, hr]

/-- C12: for every list of source records none of which has status `processing`, the
emitted row (there is one for every non-empty list; on an empty one `sources[0]` panics)
has `Enabled = false` and every entry-derived field (`EntryCount`, `CompletedCount`,
`ErrorCount`, `DaysSinceLastEntry`, `AvgEntriesDay`, `Activity`, `LLMEnrichedRatio`) at its
zero value, whatever the entry query returns. -/
theorem sourceBody_not_processing (cv : F64Overflow) (now : Int) (sid : String)
    (sources : List ContentSource) (entriesQuery : Except String (List ContentEntry))
    (hnone : ∀ src ∈ sources, src.Status ≠ "processing") :
    (∀ row : SourceSummary, sourceBody cv now sid (.ok sources) entriesQuery = .ok row →
      row.SourceID = sid ∧ row.Summary.Enabled = false ∧
      row.Summary.EntryCount = 0 ∧ row.Summary.CompletedCount = 0 ∧
      row.Summary.ErrorCount = 0 ∧ row.Summary.DaysSinceLastEntry = .finite 0 ∧
      row.Summary.AvgEntriesDay = .finite 0 ∧ row.Summary.Activity = .finite 0 ∧
      row.Summary.LLMEnrichedRatio = .finite 0) ∧
    (sources ≠ [] →
      ∃ row : SourceSummary, sourceBody cv now sid (.ok sources) entriesQuery = .ok row) ∧
    (sources = [] →
      sourceBody cv now sid (.ok sources) entriesQuery = .error .indexOutOfRange) := by
  refine ⟨?_, ?_, ?_⟩
  · intro row hrow
    by_cases hne : sources = []
    · subst hne
      exact absurd hrow (by simp [sourceBody, sourceLoop, index, Except.bind])
    · obtain ⟨s0, h0, hen, -, -, z1, z2, z3, z4, z5, z6, z7⟩ := sourceLoop_flags now sources hne
      have hfalse : s0.Enabled = false := by
        rw [← Bool.not_eq_true, hen]
        rintro ⟨src, hs, hp⟩
        exact hnone src hs hp
      rw [sourceBody_of_disabled cv now sid sources entriesQuery s0 h0 hfalse] at hrow
      rw [← Except.ok.inj hrow]
      exact ⟨rfl, hfalse, z1, z2, z3, z4, z5, z6, z7⟩
  · intro hne
    obtain ⟨s0, h0, hen, -⟩ := sourceLoop_flags now sources hne
    have hfalse : s0.Enabled = false := by
      rw [← Bool.not_eq_true, hen]
      rintro ⟨src, hs, hp⟩
      exact hnone src hs hp
    exact ⟨_, sourceBody_of_disabled cv now sid sources entriesQuery s0 h0 hfalse⟩
  · intro h
    subst h
    rfl

/-- A paused source with 25 completed entries: the entries leave no trace in the row. -/
theorem sourceBody_not_processing_witness :
    (∀ src ∈ pausedSources, src.Status ≠ "processing") ∧
    ∃ row : SourceSummary,
      sourceBody .indefinite (30 * (24 * Hour)) "source" (.ok pausedSources)
        (.ok (cadenceEntries 0)) = .ok row ∧
      row.Summary.Enabled = false ∧ row.Summary.EntryCount = 0 ∧
      row.Summary.Activity = .finite 0 := by
  refine ⟨by decide, ?_⟩
  obtain ⟨hall, hex, -⟩ :=
    sourceBody_not_processing .indefinite (30 * (24 * Hour)) "source" pausedSources
      (.ok (cadenceEntries 0)) (by decide)
  obtain ⟨row, hr⟩ := hex (by decide)
  obtain ⟨-, h1, h2, -, -, -, -, h3, -⟩ := hall row hr
  exact ⟨row, hr, h1, h2, h3⟩

/-- C13: for a source with at least one `processing` record whose entry query returns no
entry, `getEntryData` returns the error `no entries found`, and the driver still emits one
row for the source: `Enabled = true`, the source-derived fields as the source-record loop
computed them (`SourceCount` the number of records, `AddedAt` the earliest `CreatedAt`,
`StalledProcessing` and `EngagementCheck` as flagged), and every entry-derived field zero. -/
theorem sourceBody_no_entries (cv : F64Overflow) (now : Int) (sid : String)
    (sources : List ContentSource) (hproc : ∃ src ∈ sources, src.Status = "processing") :
    ∃ s0 : SummaryData, sourceLoop now sources = .ok s0 ∧
      getEntryData cv (.ok []) s0 now = .ok (s0, some .noEntriesFound) ∧
      sourceBody cv now sid (.ok sources) (.ok []) =
        .ok { SourceID := sid, Summary := s0, CreatedAt := now, UpdatedAt := now } ∧
      (∀ (sourcesOf : String → Except String (List ContentSource))
        (entriesOf : String → Except String (List ContentEntry)),
        sourcesOf sid = .ok sources → entriesOf sid = .ok [] →
        summariesLoop cv now sourcesOf entriesOf [sid] 0 [] =
          .ok [{ SourceID := sid, Summary := s0, CreatedAt := now, UpdatedAt := now }]) ∧
      s0.Enabled = true ∧ s0.SourceCount = sources.length ∧
      (∃ src ∈ sources, s0.AddedAt = src.CreatedAt) ∧
      (∀ src ∈ sources, s0.AddedAt ≤ src.CreatedAt) ∧
      (s0.StalledProcessing = true ↔
        ∃ src ∈ sources, src.Status = "processing" ∧ now - src.UpdatedAt > 24 * Hour) ∧
      (s0.EngagementCheck = true ↔
        ∃ src ∈ sources, (engagementThreshold src.Options).1 > 0) ∧
      s0.EntryCount = 0 ∧ s0.CompletedCount = 0 ∧ s0.ErrorCount = 0 ∧
      s0.DaysSinceLastEntry = .finite 0 ∧ s0.AvgEntriesDay = .finite 0 ∧
      s0.Activity = .finite 0 ∧ s0.LLMEnrichedRatio = .finite 0 := by
  have hne : sources ≠ [] := by
    obtain ⟨src, hs, -⟩ := hproc
    exact List.ne_nil_of_mem hs
  obtain ⟨s0, h0, hen, hst, heng, z1, z2, z3, z4, z5, z6, z7⟩ := sourceLoop_flags now sources hne
  obtain ⟨s1, h1, hc, hmem, hmin⟩ := sourceLoop_spec now sources hne
  have h01 : s1 = s0 := by
    rw [h0] at h1
    exact (Except.ok.inj h1).symm
  subst h01
  have hget : getEntryData cv (.ok []) s1 now = .ok (s1, some .noEntriesFound) := by
    unfold getEntryData
    simp only [List.length_nil, if_true]
    have : ({ s1 with EntryCount := 0 } : SummaryData) = s1 := by
      cases s1
      simp only [SummaryData.mk.injEq, true_and, and_true] at z1 ⊢
      exact z1.symm
    rw [this]
  have hbody := sourceBody_of_enabled cv now sid sources (.ok []) s1 _ h0 (hen.mpr hproc) hget
  refine ⟨s1, h0, hget, hbody, ?_, hen.mpr hproc, hc, hmem, hmin, hst, heng,
    z1, z2, z3, z4, z5, z6, z7⟩
  intro sourcesOf entriesOf hs he
  simp only [summariesLoop, Nat.zero_ne_add_one, OfNat.zero_ne_ofNat, if_false, hs, he, hbody,
    Except.bind, List.nil_append]

/-- The three records (two of them processing) with an empty entry list. -/
theorem sourceBody_no_entries_witness :
    (∃ src ∈ threeSources, src.Status = "processing") ∧
    ∃ s0 : SummaryData,
      sourceBody .indefinite (100 * Hour) "source" (.ok threeSources) (.ok []) =
        .ok { SourceID := "source", Summary := s0, CreatedAt := 100 * Hour,
              UpdatedAt := 100 * Hour } ∧
      s0.Enabled = true ∧ s0.SourceCount = 3 ∧ s0.EntryCount = 0 := by
  have hp : ∃ src ∈ threeSources, src.Status = "processing" :=
    ⟨⟨"source", some 3, "processing", 9 * Hour, 10 * Hour⟩, by decide, by decide⟩
  refine ⟨hp, ?_⟩
  obtain ⟨s0, -, -, hb, -, hen, hc, -, -, -, -, z1, -⟩ :=
    sourceBody_no_entries .indefinite (100 * Hour) "source" threeSources hp
  exact ⟨s0, hb, hen, hc, z1⟩

/-! ## Entry-derived fields -/

/-- The function `math.Round` yields an integer. -/
theorem mathRound_int (x : ℚ) : ∃ k : Int, mathRound x = (k : ℚ) := by
  unfold mathRound
  split_ifs
  · exact ⟨_, rfl⟩
  · exact ⟨-Int.floor (-x + 1 / 2), by push_cast; rfl⟩

/-- The function `math.Round` is within one half of its argument. -/
theorem mathRound_abs_sub_le (x : ℚ) : |mathRound x - x| ≤ 1 / 2 := by
  unfold mathRound
  split_ifs with h
  · have h1 := Int.floor_le (x + 1 / 2)
    have h2 := Int.lt_floor_add_one (x + 1 / 2)
    rw [abs_le]
    constructor <;> linarith
  · have h1 := Int.floor_le (-x + 1 / 2)
    have h2 := Int.lt_floor_add_one (-x + 1 / 2)
    rw [abs_le]
    constructor <;> linarith

/-- The summary that the body of the driver's loop emits for a source with a processing
record and at least one entry: the source-record loop gives `s0`, `getEntryData` turns it
into the summary `s` of the row. -/
theorem sourceBody_enabled (cv : F64Overflow) (now : Int) (sid : String)
    (sources : List ContentSource) (entries : List ContentEntry)
    (hproc : ∃ src ∈ sources, src.Status = "processing") (hne : entries ≠ []) :
    ∃ s0 s : SummaryData, sourceLoop now sources = .ok s0 ∧
      getEntryData cv (.ok entries) s0 now = .ok (s, none) ∧
      sourceBody cv now sid (.ok sources) (.ok entries) =
        .ok { SourceID := sid, Summary := s, CreatedAt := now, UpdatedAt := now } ∧
      s0.Enabled = true ∧ s0.CompletedCount = 0 ∧ s0.ErrorCount = 0 ∧
      s0.AvgEntriesDay = .finite 0 ∧ s0.Activity = .finite 0 ∧
      (∃ src ∈ sources, s0.AddedAt = src.CreatedAt) ∧
      (∀ src ∈ sources, s0.AddedAt ≤ src.CreatedAt) := by
  have hsne : sources ≠ [] := by
    obtain ⟨src, hs, -⟩ := hproc
    exact List.ne_nil_of_mem hs
  obtain ⟨s0, h0, hen, -, -, -, z2, z3, -, z5, z6, -⟩ := sourceLoop_flags now sources hsne
  obtain ⟨s1, h1, -, hmem, hmin⟩ := sourceLoop_spec now sources hsne
  have h01 : s1 = s0 := by
    rw [h0] at h1
    exact (Except.ok.inj h1).symm
  subst h01
  obtain ⟨s, hs, -⟩ := getEntryData_fields cv entries s1 now hne
  exact ⟨s1, s, h0, hs,
    sourceBody_of_enabled cv now sid sources (.ok entries) s1 _ h0 (hen.mpr hproc) hs,
    hen.mpr hproc, z2, z3, z5, z6, hmem, hmin⟩

/-! ## `float64` arithmetic of `getEntryData` -/

/-- Rounding to the nearest integer moves a number by at most one half. -/
theorem roundHalfEven_abs_sub_le (m : ℚ) : |((roundHalfEven m : Int) : ℚ) - m| ≤ 1 / 2 := by
  have h1 := Int.floor_le m
  have h2 := Int.lt_floor_add_one m
  unfold roundHalfEven
  rw [abs_le]
  split_ifs with a b c <;> push_cast <;> constructor <;> linarith

/-- An integer closer than one half to a number is what the number rounds to. -/
theorem roundHalfEven_eq_of_near (m : ℚ) (z : Int) (h : |m - z| < 1 / 2) :
    roundHalfEven m = z := by
  rw [abs_lt] at h
  unfold roundHalfEven
  rcases le_or_lt (z : ℚ) m with hz | hz
  · have hf : Int.floor m = z := Int.floor_eq_iff.mpr ⟨hz, by linarith⟩
    rw [hf, if_pos (by linarith)]
  · have hf : Int.floor m = z - 1 :=
      Int.floor_eq_iff.mpr ⟨by push_cast; linarith, by push_cast; linarith⟩
    rw [hf, if_neg (by push_cast; linarith), if_pos (by push_cast; linarith)]
    ring

/-- Zero is a double. -/
theorem float64OfRat_zero : float64OfRat 0 = 0 := by
  unfold float64OfRat
  rw [if_pos rfl]

/-- Rounding a positive number to a double changes it by at most the fraction `2^-53` of
itself. -/
theorem float64OfRat_abs_sub_le (q : ℚ) (hq : 0 < q) : |float64OfRat q - q| ≤ q / 2 ^ 53 := by
  have hL : (2 : ℚ) ^ Int.log 2 q ≤ q := by
    have := Int.zpow_log_le_self (b := 2) (r := q) (by norm_num) hq
    simpa using this
  unfold float64OfRat
  rw [if_neg hq.ne', if_neg (not_lt.mpr hq.le), abs_of_pos hq]
  simp only [one_mul]
  have hpos : (0 : ℚ) < 2 ^ (Int.log 2 q - 52) := zpow_pos (by norm_num) _
  have hr := roundHalfEven_abs_sub_le (q / 2 ^ (Int.log 2 q - 52))
  have h2e : (2 : ℚ) ^ (Int.log 2 q - 52) = 2 ^ Int.log 2 q / 2 ^ 52 := by
    rw [zpow_sub₀ (by norm_num)]
    norm_num
  have heq : ((roundHalfEven (q / 2 ^ (Int.log 2 q - 52)) : Int) : ℚ) * 2 ^ (Int.log 2 q - 52) - q =
      (((roundHalfEven (q / 2 ^ (Int.log 2 q - 52)) : Int) : ℚ) - q / 2 ^ (Int.log 2 q - 52)) *
        2 ^ (Int.log 2 q - 52) := by
    field_simp
  rw [heq, abs_mul, abs_of_pos hpos]
  calc |((roundHalfEven (q / 2 ^ (Int.log 2 q - 52)) : Int) : ℚ) - q / 2 ^ (Int.log 2 q - 52)| *
        2 ^ (Int.log 2 q - 52) ≤ 1 / 2 * 2 ^ (Int.log 2 q - 52) :=
          mul_le_mul_of_nonneg_right hr hpos.le
    _ = 2 ^ Int.log 2 q / 2 ^ 53 := by rw [h2e]; ring
    _ ≤ q / 2 ^ 53 := by
      apply div_le_div_of_nonneg_right hL
      norm_num

/-- The relative error of rounding a non-negative number to a double is at most `2^-53`. -/
theorem float64OfRat_bounds (q : ℚ) (hq : 0 ≤ q) :
    q * (1 - 1 / 2 ^ 53) ≤ float64OfRat q ∧ float64OfRat q ≤ q * (1 + 1 / 2 ^ 53) := by
  rcases hq.eq_or_lt with h | h
  · rw [← h, float64OfRat_zero]
    norm_num
  · have := float64OfRat_abs_sub_le q h
    rw [abs_le] at this
    constructor <;> linarith [this.1, this.2]

/-- Rounding to a double widens an enclosure `A * lo ≤ a ≤ A * hi` by the factors `1 - 2^-53`
and `1 + 2^-53`. -/
theorem float64OfRat_between (a A lo hi : ℚ) (hA : 0 ≤ A) (hlo : 0 ≤ lo) (h1 : A * lo ≤ a)
    (h2 : a ≤ A * hi) :
    A * (lo * (1 - 1 / 2 ^ 53)) ≤ float64OfRat a ∧ float64OfRat a ≤ A * (hi * (1 + 1 / 2 ^ 53)) := by
  have ha : 0 ≤ a := le_trans (mul_nonneg hA hlo) h1
  obtain ⟨b1, b2⟩ := float64OfRat_bounds a ha
  have hu1 : (0 : ℚ) ≤ 1 - 1 / 2 ^ 53 := by norm_num
  have hu2 : (0 : ℚ) ≤ 1 + 1 / 2 ^ 53 := by norm_num
  constructor
  · calc A * (lo * (1 - 1 / 2 ^ 53)) = A * lo * (1 - 1 / 2 ^ 53) := by ring
      _ ≤ a * (1 - 1 / 2 ^ 53) := mul_le_mul_of_nonneg_right h1 hu1
      _ ≤ _ := b1
  · calc float64OfRat a ≤ a * (1 + 1 / 2 ^ 53) := b2
      _ ≤ A * hi * (1 + 1 / 2 ^ 53) := mul_le_mul_of_nonneg_right h2 hu2
      _ = _ := by ring

/-- Evaluation of `float64OfRat` at a positive number whose binary exponent is `e + 52` and
whose scaled significand is nearest to the integer `z`. -/
theorem float64OfRat_eval (q : ℚ) (e z : Int) (hq : 0 < q) (h1 : (2 : ℚ) ^ (e + 52) ≤ q)
    (h2 : q < (2 : ℚ) ^ (e + 53)) (h3 : (z : ℚ) - 1 / 2 < q / (2 : ℚ) ^ e)
    (h4 : q / (2 : ℚ) ^ e < (z : ℚ) + 1 / 2) :
    float64OfRat q = (z : ℚ) * (2 : ℚ) ^ e := by
  have h5 : |q / (2 : ℚ) ^ e - z| < 1 / 2 := by
    rw [abs_lt]
    constructor <;> linarith
  have hlog : Int.log 2 q = e + 52 := by
    apply le_antisymm
    · have := (Int.lt_zpow_iff_log_lt (b := 2) (by norm_num) hq (x := e + 53)).mp (by simpa using h2)
      omega
    · exact (Int.zpow_le_iff_le_log (b := 2) (by norm_num) hq).mp (by simpa using h1)
  unfold float64OfRat
  rw [if_neg hq.ne', if_neg (not_lt.mpr hq.le), abs_of_pos hq]
  simp only [one_mul, hlog, add_sub_cancel_right]
  rw [roundHalfEven_eq_of_near _ z h5]

/-- Method `Duration.Hours` on a positive duration: the exact number of hours up to three
roundings. -/
theorem Duration.Hours_between (d : Int) (hd : 0 < d) :
    (d : ℚ) / (Hour : ℚ) * (1 - 1 / 2 ^ 53) ^ 3 ≤ Duration.Hours d ∧
      Duration.Hours d ≤ (d : ℚ) / (Hour : ℚ) * (1 + 1 / 2 ^ 53) ^ 3 := by
  have hH : (0 : Int) < Hour := by decide
  have hq : 0 ≤ Int.tdiv d Hour := Int.tdiv_nonneg hd.le hH.le
  have hr : 0 ≤ Int.tmod d Hour := Int.tmod_nonneg Hour hd.le
  have hdec : (d : ℚ) = ((Int.tmod d Hour : Int) : ℚ) + 3600000000000 * ((Int.tdiv d Hour : Int) : ℚ) := by
    have := Int.tmod_add_tdiv d Hour
    have h2 : ((Int.tmod d Hour + Hour * Int.tdiv d Hour : Int) : ℚ) = (d : ℚ) := by rw [this]
    rw [← h2]
    push_cast
    rfl
  have hHq : (Hour : ℚ) = 3600000000000 := by
    unfold Hour
    norm_num
  have hqq : (0 : ℚ) ≤ ((Int.tdiv d Hour : Int) : ℚ) := by exact_mod_cast hq
  have hrq : (0 : ℚ) ≤ ((Int.tmod d Hour : Int) : ℚ) := by exact_mod_cast hr
  obtain ⟨a1, a2⟩ := float64OfRat_bounds _ hqq
  obtain ⟨b1, b2⟩ := float64OfRat_bounds _ hrq
  have hb0 : 0 ≤ float64OfRat ((Int.tmod d Hour : Int) : ℚ) := by
    refine le_trans ?_ b1
    exact mul_nonneg hrq (by norm_num)
  obtain ⟨c1, c2⟩ := float64OfRat_bounds
    (float64OfRat ((Int.tmod d Hour : Int) : ℚ) / 3600000000000) (div_nonneg hb0 (by norm_num))
  have hsum := float64OfRat_between
    (float64OfRat ((Int.tdiv d Hour : Int) : ℚ) +
      float64OfRat (float64OfRat ((Int.tmod d Hour : Int) : ℚ) / 3600000000000))
    ((d : ℚ) / (Hour : ℚ)) ((1 - 1 / 2 ^ 53) ^ 2) ((1 + 1 / 2 ^ 53) ^ 2)
    (div_nonneg (by exact_mod_cast hd.le) (by rw [hHq]; norm_num)) (by norm_num)
    (by rw [hHq, hdec]; linarith) (by rw [hHq, hdec]; linarith)
  unfold Duration.Hours
  constructor
  · refine le_trans (le_of_eq ?_) hsum.1
    ring
  · refine le_trans hsum.2 (le_of_eq ?_)
    ring

/-- The expression `d.Hours() / 24` on a positive duration: the exact number of days up to four
roundings. -/
theorem daysOf_between (d : Int) (hd : 0 < d) :
    (d : ℚ) / ((24 * Hour : Int) : ℚ) * (1 - 1 / 2 ^ 53) ^ 4 ≤ daysOf d ∧
      daysOf d ≤ (d : ℚ) / ((24 * Hour : Int) : ℚ) * (1 + 1 / 2 ^ 53) ^ 4 := by
  obtain ⟨h1, h2⟩ := Duration.Hours_between d hd
  have hHq : (Hour : ℚ) = 3600000000000 := by
    unfold Hour
    norm_num
  have h24 : ((24 * Hour : Int) : ℚ) = 24 * 3600000000000 := by
    push_cast
    rw [hHq]
  have hdq : (0 : ℚ) ≤ (d : ℚ) := by exact_mod_cast hd.le
  have hb := float64OfRat_between (Duration.Hours d / 24) ((d : ℚ) / ((24 * Hour : Int) : ℚ))
    ((1 - 1 / 2 ^ 53) ^ 3) ((1 + 1 / 2 ^ 53) ^ 3)
    (div_nonneg hdq (by rw [h24]; norm_num)) (by norm_num)
    (by rw [h24]; rw [hHq] at h1; linarith) (by rw [h24]; rw [hHq] at h2; linarith)
  unfold daysOf
  constructor
  · refine le_trans (le_of_eq ?_) hb.1
    ring
  · refine le_trans hb.2 (le_of_eq ?_)
    ring

/-- The function `math.Round` keeps a non-negative number non-negative. -/
theorem mathRound_nonneg (x : ℚ) (hx : 0 ≤ x) : 0 ≤ mathRound x := by
  unfold mathRound
  rw [if_pos hx]
  have : (0 : Int) ≤ Int.floor (x + 1 / 2) := Int.floor_nonneg.mpr (by linarith)
  exact_mod_cast this

/-- The expression of `AvgEntriesDay` on a positive duration: the double nearest to `k / 100`,
where the integer `k ≥ 0` is `math.Round` of a double within the relative error `2^-49` of one
hundred times the exact quotient. -/
theorem avgEntriesDay_spec (n : Nat) (d : Int) (hd : 0 < d) :
    ∃ k : Int, 0 ≤ k ∧ avgEntriesDay n d = float64OfRat ((k : ℚ) / 100) ∧
      |(k : ℚ) - 100 * ((n : ℚ) / ((d : ℚ) / ((24 * Hour : Int) : ℚ)))| ≤
        1 / 2 + 100 * ((n : ℚ) / ((d : ℚ) / ((24 * Hour : Int) : ℚ))) / 2 ^ 49 := by
  obtain ⟨d1, d2⟩ := daysOf_between d hd
  have hdef : avgEntriesDay n d = float64OfRat (mathRound
      (float64OfRat (float64OfRat (float64OfRat (n : ℚ) / daysOf d) * 100)) / 100) := rfl
  have hDx : (0 : ℚ) < (d : ℚ) / ((24 * Hour : Int) : ℚ) := by
    apply div_pos
    · exact_mod_cast hd
    · have : (0 : Int) < 24 * Hour := by decide
      exact_mod_cast this
  generalize (d : ℚ) / ((24 * Hour : Int) : ℚ) = Dx at d1 d2 hDx ⊢
  have hD : 0 < daysOf d := lt_of_lt_of_le (mul_pos hDx (by norm_num)) d1
  have hn : (0 : ℚ) ≤ (n : ℚ) := Nat.cast_nonneg n
  obtain ⟨n1, n2⟩ := float64OfRat_bounds (n : ℚ) hn
  have hx : 0 ≤ (n : ℚ) / Dx := div_nonneg hn hDx.le
  have hxD : (n : ℚ) / Dx * Dx = n := div_mul_cancel₀ _ hDx.ne'
  have q1 : (n : ℚ) / Dx * ((1 - 1 / 2 ^ 53) / (1 + 1 / 2 ^ 53) ^ 4) ≤
      float64OfRat (n : ℚ) / daysOf d := by
    rw [le_div_iff₀ hD]
    calc (n : ℚ) / Dx * ((1 - 1 / 2 ^ 53) / (1 + 1 / 2 ^ 53) ^ 4) * daysOf d
        ≤ (n : ℚ) / Dx * ((1 - 1 / 2 ^ 53) / (1 + 1 / 2 ^ 53) ^ 4) *
            (Dx * (1 + 1 / 2 ^ 53) ^ 4) :=
          mul_le_mul_of_nonneg_left d2 (mul_nonneg hx (by norm_num))
      _ = ((n : ℚ) / Dx * Dx) * (1 - 1 / 2 ^ 53) := by
          field_simp
          ring
      _ = (n : ℚ) * (1 - 1 / 2 ^ 53) := by rw [hxD]
      _ ≤ _ := n1
  have q2 : float64OfRat (n : ℚ) / daysOf d ≤
      (n : ℚ) / Dx * ((1 + 1 / 2 ^ 53) / (1 - 1 / 2 ^ 53) ^ 4) := by
    rw [div_le_iff₀ hD]
    calc float64OfRat (n : ℚ) ≤ (n : ℚ) * (1 + 1 / 2 ^ 53) := n2
      _ = ((n : ℚ) / Dx * Dx) * (1 + 1 / 2 ^ 53) := by rw [hxD]
      _ = (n : ℚ) / Dx * ((1 + 1 / 2 ^ 53) / (1 - 1 / 2 ^ 53) ^ 4) *
            (Dx * (1 - 1 / 2 ^ 53) ^ 4) := by
          have : ((1 : ℚ) - 1 / 2 ^ 53) ^ 4 ≠ 0 := by norm_num
          field_simp
          ring
      _ ≤ (n : ℚ) / Dx * ((1 + 1 / 2 ^ 53) / (1 - 1 / 2 ^ 53) ^ 4) * daysOf d :=
          mul_le_mul_of_nonneg_left d1 (mul_nonneg hx (by norm_num))
  generalize (n : ℚ) / Dx = x at hx q1 q2 ⊢
  obtain ⟨x1, x2⟩ := float64OfRat_between _ x _ _ hx (by norm_num) q1 q2
  obtain ⟨y1, y2⟩ := float64OfRat_between
    (float64OfRat (float64OfRat (n : ℚ) / daysOf d) * 100) x
    ((1 - 1 / 2 ^ 53) / (1 + 1 / 2 ^ 53) ^ 4 * (1 - 1 / 2 ^ 53) * 100)
    ((1 + 1 / 2 ^ 53) / (1 - 1 / 2 ^ 53) ^ 4 * (1 + 1 / 2 ^ 53) * 100)
    hx (by norm_num) (by linarith) (by linarith)
  generalize float64OfRat (float64OfRat (float64OfRat (n : ℚ) / daysOf d) * 100) = Y
    at y1 y2 hdef
  have y1' : x * (100 * (1 - 1 / 2 ^ 49)) ≤ Y :=
    le_trans (mul_le_mul_of_nonneg_left (by norm_num) hx) y1
  have y2' : Y ≤ x * (100 * (1 + 1 / 2 ^ 49)) :=
    le_trans y2 (mul_le_mul_of_nonneg_left (by norm_num) hx)
  have hY : 0 ≤ Y := le_trans (mul_nonneg hx (by norm_num)) y1'
  obtain ⟨k, hk⟩ := mathRound_int Y
  have hk0 := mathRound_nonneg Y hY
  have hr := mathRound_abs_sub_le Y
  rw [hk] at hk0 hr
  rw [abs_le] at hr
  refine ⟨k, by exact_mod_cast hk0, ?_, ?_⟩
  · rw [hdef, hk]
  · rw [abs_le]
    constructor <;> linarith [hr.1, hr.2]

/-- Method `Duration.Hours` on 320 hours. -/
theorem Duration.Hours_320 : Duration.Hours (320 * Hour) = 320 := by
  have e1 : Int.tdiv (320 * Hour) Hour = 320 := by decide
  have e2 : Int.tmod (320 * Hour) Hour = 0 := by decide
  have f320 : float64OfRat 320 = 320 := by
    rw [float64OfRat_eval 320 (-44) 5629499534213120 (by norm_num) (by norm_num) (by norm_num)
      (by norm_num) (by norm_num)]
    norm_num
  simp only [Duration.Hours, e1, e2, Int.cast_zero, Int.cast_ofNat, float64OfRat_zero, zero_div,
    add_zero, f320]

/-- The double `320.0 / 24`, which is `13.333333333333334`. -/
theorem daysOf_320 : daysOf (320 * Hour) = 7505999378950827 / 562949953421312 := by
  unfold daysOf
  rw [Duration.Hours_320,
    float64OfRat_eval (320 / 24) (-49) 7505999378950827 (by norm_num) (by norm_num) (by norm_num)
      (by norm_num) (by norm_num)]
  norm_num

/-- Three entries over 320 hours: the quotient is the double `0.22499999999999998`, its product
by one hundred the double `22.499999999999996`, which `math.Round` takes to 22, and the result
is the double `0.22`. -/
theorem avgEntriesDay_320 :
    avgEntriesDay 3 (320 * Hour) = 7926335344172073 / 36028797018963968 := by
  have f3 : float64OfRat ((3 : Nat) : ℚ) = 3 := by
    rw [float64OfRat_eval ((3 : Nat) : ℚ) (-51) 6755399441055744 (by norm_num) (by norm_num) (by norm_num)
      (by norm_num) (by norm_num)]
    norm_num
  have fX : float64OfRat (3 / (7505999378950827 / 562949953421312)) =
      2026619832316723 / 9007199254740992 := by
    rw [float64OfRat_eval (3 / (7505999378950827 / 562949953421312)) (-55) 8106479329266892
      (by norm_num) (by norm_num) (by norm_num)
      (by norm_num) (by norm_num)]
    norm_num
  have fY : float64OfRat (2026619832316723 / 9007199254740992 * 100) =
      6333186975989759 / 281474976710656 := by
    rw [float64OfRat_eval (2026619832316723 / 9007199254740992 * 100) (-48) 6333186975989759
      (by norm_num) (by norm_num) (by norm_num)
      (by norm_num) (by norm_num)]
    norm_num
  have fR : mathRound (6333186975989759 / 281474976710656) = 22 := by
    unfold mathRound
    rw [if_pos (by norm_num)]
    have : Int.floor ((6333186975989759 / 281474976710656 : ℚ) + 1 / 2) = 22 :=
      Int.floor_eq_iff.mpr ⟨by norm_num, by norm_num⟩
    rw [this]
    norm_num
  have fQ : float64OfRat (22 / 100) = 7926335344172073 / 36028797018963968 := by
    rw [float64OfRat_eval (22 / 100) (-55) 7926335344172073 (by norm_num) (by norm_num) (by norm_num)
      (by norm_num) (by norm_num)]
    norm_num
  unfold avgEntriesDay
  rw [daysOf_320, f3, fX, fY, fR, fQ]

/-- Method `Duration.Hours` on the largest `Duration`, the double `2562047.7880152157`. -/
theorem Duration.Hours_maxInt64 : Duration.Hours maxInt64 = 2750977865078623 / 1073741824 := by
  have e1 : Int.tdiv maxInt64 Hour = 2562047 := by decide
  have e2 : Int.tmod maxInt64 Hour = 2836854775807 := by decide
  have f1 : float64OfRat 2562047 = 2562047 := by
    rw [float64OfRat_eval 2562047 (-31) 5501954037907456 (by norm_num) (by norm_num) (by norm_num)
      (by norm_num) (by norm_num)]
    norm_num
  have f2 : float64OfRat 2836854775807 = 2836854775807 := by
    rw [float64OfRat_eval 2836854775807 (-11) 5809878580852736 (by norm_num) (by norm_num)
      (by norm_num) (by norm_num) (by norm_num)]
    norm_num
  have f3 : float64OfRat (2836854775807 / 3600000000000) = 1774452515448419 / 2251799813685248 := by
    rw [float64OfRat_eval (2836854775807 / 3600000000000) (-53) 7097810061793676 (by norm_num)
      (by norm_num) (by norm_num) (by norm_num) (by norm_num)]
    norm_num
  have f4 : float64OfRat (2562047 + 1774452515448419 / 2251799813685248) =
      2750977865078623 / 1073741824 := by
    rw [float64OfRat_eval (2562047 + 1774452515448419 / 2251799813685248) (-31) 5501955730157246
      (by norm_num) (by norm_num) (by norm_num) (by norm_num) (by norm_num)]
    norm_num
  simp only [Duration.Hours, e1, e2, Int.cast_ofNat, f1, f2, f3, f4]

/-- Saturation of `Sub` in `AvgEntriesDay`: when the last entry is further from `AddedAt` than the largest
`Duration` (about 292 years), `Sub` saturates and the average is taken over 292 years.  With
`AddedAt` the zero `time.Time`, the last entry at 2023-09-29 and 1000 entries, the code
yields the double `0.01`, where the quotient over the 2022 years between them (0.0014 a day)
rounds to 0. -/
theorem avgEntriesDay_saturated :
    Time.Sub llmEnrichStartDate zeroTime = maxInt64 ∧
    avgEntriesDay 1000 maxInt64 = 5764607523034235 / 576460752303423488 ∧
    mathRound ((1000 : ℚ) / (((llmEnrichStartDate - zeroTime : Int) : ℚ) / ((24 * Hour : Int) : ℚ)) *
      100) / 100 = 0 := by
  have fD : daysOf maxInt64 = 7335940973542995 / 68719476736 := by
    unfold daysOf
    rw [Duration.Hours_maxInt64,
      float64OfRat_eval (2750977865078623 / 1073741824 / 24) (-36) 7335940973542995 (by norm_num)
        (by norm_num) (by norm_num) (by norm_num) (by norm_num)]
    norm_num
  have fn : float64OfRat ((1000 : Nat) : ℚ) = 1000 := by
    rw [float64OfRat_eval ((1000 : Nat) : ℚ) (-43) 8796093022208000 (by norm_num) (by norm_num)
      (by norm_num) (by norm_num) (by norm_num)]
    norm_num
  have fX : float64OfRat (1000 / (7335940973542995 / 68719476736)) =
      5399999999999999 / 576460752303423488 := by
    rw [float64OfRat_eval (1000 / (7335940973542995 / 68719476736)) (-59) 5399999999999999
      (by norm_num) (by norm_num) (by norm_num) (by norm_num) (by norm_num)]
    norm_num
  have fY : float64OfRat (5399999999999999 / 576460752303423488 * 100) =
      4218749999999999 / 4503599627370496 := by
    rw [float64OfRat_eval (5399999999999999 / 576460752303423488 * 100) (-53) 8437499999999998
      (by norm_num) (by norm_num) (by norm_num) (by norm_num) (by norm_num)]
    norm_num
  have fR : mathRound (4218749999999999 / 4503599627370496) = 1 := by
    unfold mathRound
    rw [if_pos (by norm_num)]
    have : Int.floor ((4218749999999999 / 4503599627370496 : ℚ) + 1 / 2) = 1 :=
      Int.floor_eq_iff.mpr ⟨by norm_num, by norm_num⟩
    rw [this]
    norm_num
  have fQ : float64OfRat (1 / 100) = 5764607523034235 / 576460752303423488 := by
    rw [float64OfRat_eval (1 / 100) (-59) 5764607523034235 (by norm_num) (by norm_num)
      (by norm_num) (by norm_num) (by norm_num)]
    norm_num
  refine ⟨by decide, ?_, ?_⟩
  · unfold avgEntriesDay
    rw [fD, fn, fX, fY, fR, fQ]
  · have hq : (1000 : ℚ) / (((llmEnrichStartDate - zeroTime : Int) : ℚ) / ((24 * Hour : Int) : ℚ)) *
        100 = 100000 / 738791 := by
      unfold llmEnrichStartDate zeroTime Hour
      norm_num
    have hr : mathRound (100000 / 738791) = 0 := by
      unfold mathRound
      rw [if_pos (by norm_num)]
      have : Int.floor ((100000 / 738791 : ℚ) + 1 / 2) = 0 :=
        Int.floor_eq_iff.mpr ⟨by norm_num, by norm_num⟩
      rw [this]
      norm_num
    rw [hq, hr]
    norm_num

/-! ## The average number of entries a day -/

/-- C14, the input on which the claim fails: a source with one processing record created at
instant 0 and three completed entries with `Order = 0`, the last one 320 hours later.
`activeDuration` is 320 hours and the quotient is `3 / (320 / 24) = 0.225`; the code
yields the double `0.22` (the product by one hundred is the double `22.499999999999996`,
which `math.Round` takes to 22), whose value `7926335344172073 / 2^55` is neither 0.23 nor
0.22, and one hundred times which is not an integer. -/
theorem sourceBody_avgEntriesDay_not_hundredth :
    ∃ row : SourceSummary,
      sourceBody .indefinite (400 * Hour) "source" (.ok oneSource) (.ok threeEntries) = .ok row ∧
      row.Summary.Enabled = true ∧
      (threeEntries.getLast (by decide)).CreatedAt - row.Summary.AddedAt = 320 * Hour ∧
      threeEntries.countP (fun e =>
        decide (e.Status = "completed" ∧ e.EntryMetadata.Order = 0)) = 3 ∧
      row.Summary.AvgEntriesDay = .finite (7926335344172073 / 36028797018963968) ∧
      (¬ ∃ k : Int, 100 * (7926335344172073 / 36028797018963968 : ℚ) = (k : ℚ)) ∧
      (7926335344172073 / 36028797018963968 : ℚ) ≠
        mathRound ((3 : ℚ) / (((320 * Hour : Int) : ℚ) / ((24 * Hour : Int) : ℚ)) * 100) / 100 := by
  have hp : ∃ src ∈ oneSource, src.Status = "processing" :=
    ⟨⟨"source", none, "processing", 0, 390 * Hour⟩, by decide, by decide⟩
  have hne : threeEntries ≠ [] := by decide
  obtain ⟨s0, s, h0, hs, hbody, hen, -, -, -, -, hmem, -⟩ :=
    sourceBody_enabled .indefinite (400 * Hour) "source" oneSource threeEntries hp hne
  obtain ⟨s', hs', -, hen', -, -, hadd, -, -, -, -, havg, -, -⟩ :=
    getEntryData_fields .indefinite threeEntries s0 (400 * Hour) hne
  have hss : s' = s := by
    rw [hs] at hs'
    exact (Prod.mk.inj (Except.ok.inj hs')).1.symm
  subst hss
  have ha0 : s0.AddedAt = 0 := by
    obtain ⟨src, hsrc, he⟩ := hmem
    rw [he]
    have : src = ⟨"source", none, "processing", 0, 390 * Hour⟩ := by
      simpa [oneSource] using hsrc
    rw [this]
  have hlast : (threeEntries.getLast hne).CreatedAt = 320 * Hour := rfl
  have hcnt : (threeEntries.filter (fun e =>
      decide (e.Status = "completed" ∧ e.EntryMetadata.Order = 0))).length = 3 := by decide
  have hsub : Time.Sub (320 * Hour) 0 = 320 * Hour := by decide
  refine ⟨_, hbody, ?_, ?_, by decide, ?_, ?_, ?_⟩
  · show s'.Enabled = true
    rw [hen', hen]
  · show (threeEntries.getLast _).CreatedAt - s'.AddedAt = 320 * Hour
    rw [hadd, ha0]
    rfl
  · show s'.AvgEntriesDay = _
    rw [havg, hlast, ha0, hsub, if_pos (by decide), hcnt, avgEntriesDay_320]
  · rintro ⟨k, hk⟩
    have h2 : (100 * 7926335344172073 : ℚ) = (k : ℚ) * 36028797018963968 := by
      rw [← hk]
      norm_num
    have h3 : (100 * 7926335344172073 : Int) = k * 36028797018963968 := by exact_mod_cast h2
    omega
  · have hq : (3 : ℚ) / (((320 * Hour : Int) : ℚ) / ((24 * Hour : Int) : ℚ)) * 100 = 45 / 2 := by
      unfold Hour
      norm_num
    have hr : mathRound (45 / 2) = 23 := by
      unfold mathRound
      rw [if_pos (by norm_num)]
      have : Int.floor ((45 / 2 : ℚ) + 1 / 2) = 23 :=
        Int.floor_eq_iff.mpr ⟨by norm_num, by norm_num⟩
      rw [this]
      norm_num
    rw [hq, hr]
    norm_num

/-- C14 (amended): for a source with a processing record and a non-empty entry list, with
`activeDuration` the difference of the `CreatedAt` of the last entry and `AddedAt` (the
earliest `CreatedAt` of the records of the source): `AvgEntriesDay` is 0 when
`activeDuration ≤ 0`; when `activeDuration` is positive and fits a `Duration`,
`AvgEntriesDay` is the `float64` nearest to `k / 100` for an integer `k ≥ 0` that is within
`1/2 + q / 2^49` of `q`, one hundred times the number of completed entries with `Order = 0`
divided by `activeDuration` in days. -/
theorem sourceBody_avgEntriesDay_float64 (cv : F64Overflow) (now : Int) (sid : String)
    (sources : List ContentSource) (entries : List ContentEntry)
    (hproc : ∃ src ∈ sources, src.Status = "processing") (hne : entries ≠ []) :
    ∃ row : SourceSummary, sourceBody cv now sid (.ok sources) (.ok entries) = .ok row ∧
      (∃ src ∈ sources, row.Summary.AddedAt = src.CreatedAt) ∧
      (∀ src ∈ sources, row.Summary.AddedAt ≤ src.CreatedAt) ∧
      ((entries.getLast hne).CreatedAt - row.Summary.AddedAt ≤ 0 →
        row.Summary.AvgEntriesDay = .finite 0) ∧
      (0 < (entries.getLast hne).CreatedAt - row.Summary.AddedAt →
        (entries.getLast hne).CreatedAt - row.Summary.AddedAt ≤ maxInt64 →
        ∃ k : Int, 0 ≤ k ∧
          row.Summary.AvgEntriesDay = .finite (float64OfRat ((k : ℚ) / 100)) ∧
          |(k : ℚ) - 100 * ((entries.countP (fun e =>
                decide (e.Status = "completed" ∧ e.EntryMetadata.Order = 0)) : ℚ) /
              ((((entries.getLast hne).CreatedAt - row.Summary.AddedAt : Int) : ℚ) /
                ((24 * Hour : Int) : ℚ)))| ≤
            1 / 2 + 100 * ((entries.countP (fun e =>
                decide (e.Status = "completed" ∧ e.EntryMetadata.Order = 0)) : ℚ) /
              ((((entries.getLast hne).CreatedAt - row.Summary.AddedAt : Int) : ℚ) /
                ((24 * Hour : Int) : ℚ))) / 2 ^ 49) := by
  obtain ⟨s0, s, h0, hs, hbody, -, -, -, za, -, hmem, hmin⟩ :=
    sourceBody_enabled cv now sid sources entries hproc hne
  obtain ⟨s', hs', -, -, -, -, hadd, -, -, -, -, havg, -, -⟩ :=
    getEntryData_fields cv entries s0 now hne
  have hss : s' = s := by
    rw [hs] at hs'
    exact (Prod.mk.inj (Except.ok.inj hs')).1.symm
  subst hss
  refine ⟨_, hbody, ?_, ?_, ?_, ?_⟩
  · simpa only [hadd] using hmem
  · simpa only [hadd] using hmin
  · intro hle
    simp only [hadd] at hle ⊢
    have hsub : ¬ Time.Sub (entries.getLast hne).CreatedAt s0.AddedAt > 0 := by
      unfold Time.Sub minInt64 maxInt64
      split_ifs <;> omega
    rw [havg, if_neg hsub, za]
  · intro hpos hfit
    simp only [hadd] at hpos hfit ⊢
    have hsub : Time.Sub (entries.getLast hne).CreatedAt s0.AddedAt =
        (entries.getLast hne).CreatedAt - s0.AddedAt :=
      Time.Sub_eq _ _ (by unfold minInt64; omega) hfit
    rw [havg, hsub, if_pos hpos, ← List.countP_eq_length_filter]
    obtain ⟨k, hk0, hk, hb⟩ := avgEntriesDay_spec
      (entries.countP (fun e => decide (e.Status = "completed" ∧ e.EntryMetadata.Order = 0)))
      ((entries.getLast hne).CreatedAt - s0.AddedAt) hpos
    exact ⟨k, hk0, by rw [hk], hb⟩

/-- The 25 daily entries of a source whose records were created within the first hours. -/
theorem sourceBody_avgEntriesDay_float64_witness :
    ((∃ src ∈ threeSources, src.Status = "processing") ∧ cadenceEntries 0 ≠ []) ∧
    ∃ (row : SourceSummary) (k : Int),
      sourceBody .indefinite (30 * (24 * Hour)) "source" (.ok threeSources)
        (.ok (cadenceEntries 0)) = .ok row ∧
      0 ≤ k ∧ row.Summary.AvgEntriesDay = .finite (float64OfRat ((k : ℚ) / 100)) := by
  have hp : ∃ src ∈ threeSources, src.Status = "processing" :=
    ⟨⟨"source", some 3, "processing", 9 * Hour, 10 * Hour⟩, by decide, by decide⟩
  have hne : cadenceEntries 0 ≠ [] := by decide
  refine ⟨⟨hp, hne⟩, ?_⟩
  obtain ⟨row, hr, hmem, -, hle, hpos⟩ :=
    sourceBody_avgEntriesDay_float64 .indefinite (30 * (24 * Hour)) "source" threeSources
      (cadenceEntries 0) hp hne
  have hlast : ((cadenceEntries 0).getLast hne).CreatedAt = 24 * (24 * Hour) := rfl
  rcases le_or_lt (((cadenceEntries 0).getLast hne).CreatedAt - row.Summary.AddedAt) 0
    with h | h
  · refine ⟨row, 0, hr, le_refl 0, ?_⟩
    rw [hle h, Int.cast_zero, zero_div, float64OfRat_zero]
  · have hge : 0 ≤ row.Summary.AddedAt := by
      obtain ⟨src, hsrc, he⟩ := hmem
      rw [he]
      simp only [threeSources, List.mem_cons, List.mem_singleton, List.not_mem_nil,
        or_false] at hsrc
      rcases hsrc with rfl | rfl | rfl <;> decide
    have hfit : ((cadenceEntries 0).getLast hne).CreatedAt - row.Summary.AddedAt ≤ maxInt64 := by
      rw [hlast]
      unfold maxInt64 Hour
      omega
    obtain ⟨k, hk0, hk, -⟩ := hpos h hfit
    exact ⟨row, k, hr, hk0, hk⟩

/-- The value of the accumulator after a sequence of `add` calls on a fresh one. -/
theorem successRatio_foldl_value (startDate endDate : Int) (l : List (Int × Bool)) :
    (l.foldl (fun sr p => sr.add p.1 p.2) (newSuccessRatio startDate endDate)).value =
      .finite (if l.countP (fun p => decide (startDate < p.1 ∧ p.1 < endDate)) = 0 then 0
        else (l.countP (fun p => decide (startDate < p.1 ∧ p.1 < endDate) && p.2) : ℚ) /
          (l.countP (fun p => decide (startDate < p.1 ∧ p.1 < endDate)) : ℚ)) := by
  obtain ⟨-, -, h3, h4⟩ := successRatio_foldl_add l (newSuccessRatio startDate endDate)
  simp only [newSuccessRatio, zero_add] at h3 h4
  unfold successRatio.value
  simp only [newSuccessRatio]
  rw [h3, h4]
  by_cases hm : l.countP (fun p => decide (startDate < p.1 ∧ p.1 < endDate)) = 0
  · rw [if_pos (by exact_mod_cast hm), if_pos hm]
  · rw [if_neg (by exact_mod_cast hm), if_neg hm]
    unfold Float64.divInt
    rw [if_neg (by exact_mod_cast hm)]
    push_cast
    rfl

/-- The enrichment ratio that `getEntryData` computes, in terms of the entries. -/
theorem enrichedRatio_eq (entries : List ContentEntry) (start now : Int) :
    (((entries.filter (fun e => decide (e.Status = "completed"))).map
        (fun e => (e.CreatedAt, e.EntryMetadata.Enriched.isSome))).foldl
        (fun sr p => sr.add p.1 p.2) (newSuccessRatio start now)).value =
      .finite
        (if entries.countP (fun e => decide
            (e.Status = "completed" ∧ start < e.CreatedAt ∧ e.CreatedAt < now)) = 0 then 0
        else
          (entries.countP (fun e => decide
            (e.Status = "completed" ∧ start < e.CreatedAt ∧ e.CreatedAt < now ∧
              e.EntryMetadata.Enriched.isSome = true)) : ℚ) /
          (entries.countP (fun e => decide
            (e.Status = "completed" ∧ start < e.CreatedAt ∧ e.CreatedAt < now)) : ℚ)) := by
  rw [successRatio_foldl_value]
  have hm : ((entries.filter (fun e => decide (e.Status = "completed"))).map
      (fun e => (e.CreatedAt, e.EntryMetadata.Enriched.isSome))).countP
        (fun p => decide (start < p.1 ∧ p.1 < now)) =
      entries.countP (fun e => decide
        (e.Status = "completed" ∧ start < e.CreatedAt ∧ e.CreatedAt < now)) := by
    rw [List.countP_map, List.countP_filter]
    apply List.countP_congr
    intro e _
    simp only [Function.comp, Bool.and_eq_true, decide_eq_true_eq]
    tauto
  have hk : ((entries.filter (fun e => decide (e.Status = "completed"))).map
      (fun e => (e.CreatedAt, e.EntryMetadata.Enriched.isSome))).countP
        (fun p => decide (start < p.1 ∧ p.1 < now) && p.2) =
      entries.countP (fun e => decide
        (e.Status = "completed" ∧ start < e.CreatedAt ∧ e.CreatedAt < now ∧
          e.EntryMetadata.Enriched.isSome = true)) := by
    rw [List.countP_map, List.countP_filter]
    apply List.countP_congr
    intro e _
    simp only [Function.comp, Bool.and_eq_true, decide_eq_true_eq]
    tauto
  rw [hm, hk]

/-- C15: for a source with a processing record and a non-empty entry list,
`LLMEnrichedRatio` is the fraction, among the entries with status `completed` created
strictly between the later of 2023-09-29 00:00 UTC and `now` minus 30 days, and `now`, of
those whose `Enriched` is present; it is 0 when there is no such entry; and two entry lists
with the same completed entries give the same ratio. -/
theorem sourceBody_enrichedRatio (cv : F64Overflow) (now : Int) (sid : String)
    (sources : List ContentSource) (entries : List ContentEntry)
    (hproc : ∃ src ∈ sources, src.Status = "processing") (hne : entries ≠ []) :
    ∃ row : SourceSummary, sourceBody cv now sid (.ok sources) (.ok entries) = .ok row ∧
      row.Summary.LLMEnrichedRatio = .finite
        (if entries.countP (fun e => decide
            (e.Status = "completed" ∧
              max llmEnrichStartDate (now - 30 * 24 * Hour) < e.CreatedAt ∧
              e.CreatedAt < now)) = 0 then 0
        else
          (entries.countP (fun e => decide
            (e.Status = "completed" ∧
              max llmEnrichStartDate (now - 30 * 24 * Hour) < e.CreatedAt ∧
              e.CreatedAt < now ∧ e.EntryMetadata.Enriched.isSome = true)) : ℚ) /
          (entries.countP (fun e => decide
            (e.Status = "completed" ∧
              max llmEnrichStartDate (now - 30 * 24 * Hour) < e.CreatedAt ∧
              e.CreatedAt < now)) : ℚ)) ∧
      llmEnrichStartDate = 1695945600000000000 ∧
      ∀ entries' : List ContentEntry, entries' ≠ [] →
        entries'.filter (fun e => decide (e.Status = "completed")) =
          entries.filter (fun e => decide (e.Status = "completed")) →
        ∃ row' : SourceSummary,
          sourceBody cv now sid (.ok sources) (.ok entries') = .ok row' ∧
          row'.Summary.LLMEnrichedRatio = row.Summary.LLMEnrichedRatio := by
  obtain ⟨s0, s, h0, hs, hbody, -⟩ := sourceBody_enabled cv now sid sources entries hproc hne
  obtain ⟨s', hs', -, -, -, -, -, -, -, -, -, -, -, hllm⟩ :=
    getEntryData_fields cv entries s0 now hne
  have hss : s' = s := by
    rw [hs] at hs'
    exact (Prod.mk.inj (Except.ok.inj hs')).1.symm
  subst hss
  refine ⟨_, hbody, ?_, by decide, ?_⟩
  · simp only
    rw [hllm, enrichedRatio_eq]
  · intro entries' hne' hfilter
    obtain ⟨t0, t, g0, gs, gbody, -⟩ := sourceBody_enabled cv now sid sources entries' hproc hne'
    have h00 : t0 = s0 := by
      rw [h0] at g0
      exact (Except.ok.inj g0).symm
    subst h00
    obtain ⟨t', gs', -, -, -, -, -, -, -, -, -, -, -, gllm⟩ :=
      getEntryData_fields cv entries' t0 now hne'
    have htt : t' = t := by
      rw [gs] at gs'
      exact (Prod.mk.inj (Except.ok.inj gs')).1.symm
    subst htt
    refine ⟨_, gbody, ?_⟩
    simp only
    rw [gllm, hllm, hfilter]

/-- Ten days after the fixed date, of the two completed entries inside the window one is
enriched: the ratio is one half. -/
theorem sourceBody_enrichedRatio_witness :
    ((∃ src ∈ threeSources, src.Status = "processing") ∧ mixedEntries ≠ []) ∧
    ∃ row : SourceSummary,
      sourceBody .indefinite (llmEnrichStartDate + 240 * Hour) "source" (.ok threeSources)
        (.ok mixedEntries) = .ok row ∧
      row.Summary.LLMEnrichedRatio = .finite (1 / 2) := by
  have hp : ∃ src ∈ threeSources, src.Status = "processing" :=
    ⟨⟨"source", some 3, "processing", 9 * Hour, 10 * Hour⟩, by decide, by decide⟩
  have hne : mixedEntries ≠ [] := by decide
  refine ⟨⟨hp, hne⟩, ?_⟩
  obtain ⟨row, hr, hv, -⟩ :=
    sourceBody_enrichedRatio .indefinite (llmEnrichStartDate + 240 * Hour) "source" threeSources
      mixedEntries hp hne
  refine ⟨row, hr, ?_⟩
  rw [hv]
  have hm : mixedEntries.countP (fun e => decide
      (e.Status = "completed" ∧
        max llmEnrichStartDate (llmEnrichStartDate + 240 * Hour - 30 * 24 * Hour) < e.CreatedAt ∧
        e.CreatedAt < llmEnrichStartDate + 240 * Hour)) = 2 := by decide
  have hk : mixedEntries.countP (fun e => decide
      (e.Status = "completed" ∧
        max llmEnrichStartDate (llmEnrichStartDate + 240 * Hour - 30 * 24 * Hour) < e.CreatedAt ∧
        e.CreatedAt < llmEnrichStartDate + 240 * Hour ∧
        e.EntryMetadata.Enriched.isSome = true)) = 1 := by decide
  rw [hm, hk]
  norm_num

/-- C16: for a source with a processing record and a non-empty entry list, `Activity` is
what `evalActivity` returns on the full entry list and `now` when at least one entry is
completed with `Order = 0`, and 0 when none is. -/
theorem sourceBody_activity (cv : F64Overflow) (now : Int) (sid : String)
    (sources : List ContentSource) (entries : List ContentEntry)
    (hproc : ∃ src ∈ sources, src.Status = "processing") (hne : entries ≠ []) :
    ∃ row : SourceSummary, sourceBody cv now sid (.ok sources) (.ok entries) = .ok row ∧
      (0 < entries.countP (fun e =>
          decide (e.Status = "completed" ∧ e.EntryMetadata.Order = 0)) →
        evalActivity cv entries now = .ok row.Summary.Activity) ∧
      (entries.countP (fun e =>
          decide (e.Status = "completed" ∧ e.EntryMetadata.Order = 0)) = 0 →
        row.Summary.Activity = .finite 0) := by
  obtain ⟨s0, s, h0, hs, hbody, -, -, -, -, zact, -⟩ :=
    sourceBody_enabled cv now sid sources entries hproc hne
  obtain ⟨s', hs', -, -, -, -, -, -, -, -, -, -, hact, -⟩ :=
    getEntryData_fields cv entries s0 now hne
  have hss : s' = s := by
    rw [hs] at hs'
    exact (Prod.mk.inj (Except.ok.inj hs')).1.symm
  subst hss
  rw [← List.countP_eq_length_filter] at hact
  refine ⟨_, hbody, ?_, ?_⟩
  · intro hpos
    rw [if_pos hpos] at hact
    exact hact
  · intro hzero
    rw [if_neg (by omega)] at hact
    simp only
    rw [hact, zact]

/-- The 25 daily entries, all completed with `Order = 0`, scored one day after the last. -/
theorem sourceBody_activity_witness :
    ((∃ src ∈ threeSources, src.Status = "processing") ∧ cadenceEntries 0 ≠ []) ∧
    ∃ row : SourceSummary,
      sourceBody .indefinite (25 * (24 * Hour)) "source" (.ok threeSources)
        (.ok (cadenceEntries 0)) = .ok row ∧
      row.Summary.Activity = Float64.divInt 86400000000000 90947368421052 := by
  have hp : ∃ src ∈ threeSources, src.Status = "processing" :=
    ⟨⟨"source", some 3, "processing", 9 * Hour, 10 * Hour⟩, by decide, by decide⟩
  have hne : cadenceEntries 0 ≠ [] := by decide
  refine ⟨⟨hp, hne⟩, ?_⟩
  obtain ⟨row, hr, hpos, -⟩ :=
    sourceBody_activity .indefinite (25 * (24 * Hour)) "source" threeSources
      (cadenceEntries 0) hp hne
  refine ⟨row, hr, ?_⟩
  have h := hpos (by decide)
  have hv : evalActivity .indefinite (cadenceEntries 0) (25 * (24 * Hour)) =
      .ok (Float64.divInt 86400000000000 90947368421052) := by rfl
  rw [hv] at h
  exact (Except.ok.inj h).symm

/-- C17: for a non-empty entry list `getEntryData` returns no error and sets `EntryCount`
to the length of the list, adds to `CompletedCount` the number of entries with status
`completed` and to `ErrorCount` the number of entries with reject reason `generic_error`,
whatever their status; both counters start at zero in the driver, so that they are these
numbers and are at most `EntryCount`. -/
theorem getEntryData_counts (cv : F64Overflow) (entries : List ContentEntry)
    (summary : SummaryData) (now : Int) (hne : entries ≠ []) :
    (∃ s : SummaryData, getEntryData cv (.ok entries) summary now = .ok (s, none) ∧
      s.EntryCount = entries.length ∧
      s.CompletedCount = summary.CompletedCount +
        entries.countP (fun e => decide (e.Status = "completed")) ∧
      s.ErrorCount = summary.ErrorCount +
        entries.countP (fun e => decide (e.RejectReason = "generic_error")) ∧
      (summary.CompletedCount = 0 →
        s.CompletedCount = entries.countP (fun e => decide (e.Status = "completed")) ∧
        s.CompletedCount ≤ s.EntryCount) ∧
      (summary.ErrorCount = 0 →
        s.ErrorCount = entries.countP (fun e => decide (e.RejectReason = "generic_error")) ∧
        s.ErrorCount ≤ s.EntryCount)) ∧
    ∀ (sid : String) (sources : List ContentSource),
      (∃ src ∈ sources, src.Status = "processing") →
      ∃ row : SourceSummary, sourceBody cv now sid (.ok sources) (.ok entries) = .ok row ∧
        row.Summary.EntryCount = entries.length ∧
        row.Summary.CompletedCount =
          entries.countP (fun e => decide (e.Status = "completed")) ∧
        row.Summary.ErrorCount =
          entries.countP (fun e => decide (e.RejectReason = "generic_error")) ∧
        row.Summary.CompletedCount ≤ row.Summary.EntryCount ∧
        row.Summary.ErrorCount ≤ row.Summary.EntryCount := by
  have hc : entries.countP (fun e => decide (e.Status = "completed")) ≤ entries.length :=
    List.countP_le_length _
  have he : entries.countP (fun e => decide (e.RejectReason = "generic_error")) ≤
      entries.length := List.countP_le_length _
  constructor
  · obtain ⟨s, hs, -, -, -, -, -, h1, h2, h3, -⟩ := getEntryData_fields cv entries summary now hne
    refine ⟨s, hs, h1, h2, h3, ?_, ?_⟩
    · intro hz
      rw [h2, hz, h1, Nat.zero_add]
      exact ⟨rfl, hc⟩
    · intro hz
      rw [h3, hz, h1, Nat.zero_add]
      exact ⟨rfl, he⟩
  · intro sid sources hproc
    obtain ⟨s0, s, h0, hs, hbody, -, z2, z3, -⟩ :=
      sourceBody_enabled cv now sid sources entries hproc hne
    obtain ⟨s', hs', -, -, -, -, -, h1, h2, h3, -⟩ := getEntryData_fields cv entries s0 now hne
    have hss : s' = s := by
      rw [hs] at hs'
      exact (Prod.mk.inj (Except.ok.inj hs')).1.symm
    subst hss
    rw [z2, Nat.zero_add] at h2
    rw [z3, Nat.zero_add] at h3
    refine ⟨_, hbody, h1, h2, h3, ?_, ?_⟩
    · simp only; rw [h1, h2]; exact hc
    · simp only; rw [h1, h3]; exact he

/-- Four entries, three of them completed and one, not completed, rejected with
`generic_error`. -/
theorem getEntryData_counts_witness :
    mixedEntries ≠ [] ∧
    ∃ s : SummaryData,
      getEntryData .indefinite (.ok mixedEntries) SummaryData.zero
        (llmEnrichStartDate + 240 * Hour) = .ok (s, none) ∧
      s.EntryCount = 4 ∧ s.CompletedCount = 3 ∧ s.ErrorCount = 1 := by
  have hne : mixedEntries ≠ [] := by decide
  refine ⟨hne, ?_⟩
  obtain ⟨⟨s, hs, h1, -, -, h4, h5⟩, -⟩ :=
    getEntryData_counts .indefinite mixedEntries SummaryData.zero
      (llmEnrichStartDate + 240 * Hour) hne
  refine ⟨s, hs, h1, ?_, ?_⟩
  · rw [(h4 rfl).1]; decide
  · rw [(h5 rfl).1]; decide



/-! ## The activity score against its specification -/

/-- The least element of a list of instants. -/
theorem min?_eq_some_of (xs : List Int) (a : Int) (hmem : a ∈ xs) (hle : ∀ b ∈ xs, a ≤ b) :
    xs.min? = some a := by
  haveI : Std.Antisymm (fun a b : Int => a ≤ b) := ⟨fun h1 h2 => Int.le_antisymm h1 h2⟩
  exact (List.min?_eq_some_iff (fun a => Int.le_refl a)
    (fun a b => by rcases le_total a b with h | h <;> simp [h])
    (fun a b c => le_min_iff)).mpr ⟨hmem, hle⟩

/-- The greatest element of a list of instants. -/
theorem max?_eq_some_of (xs : List Int) (a : Int) (hmem : a ∈ xs) (hle : ∀ b ∈ xs, b ≤ a) :
    xs.max? = some a := by
  haveI : Std.Antisymm (fun a b : Int => a ≤ b) := ⟨fun h1 h2 => Int.le_antisymm h1 h2⟩
  exact (List.max?_eq_some_iff (fun a => Int.le_refl a)
    (fun a b => by rcases le_total a b with h | h <;> simp [h])
    (fun a b c => max_le_iff)).mpr ⟨hmem, hle⟩

/-- Conversion to `float64` is exact below `2^53`. -/
theorem float64OfInt64_small (x : Int) (h0 : 0 ≤ x) (h : x < 9007199254740992) :
    float64OfInt64 x = x := by
  unfold float64OfInt64
  have : x.natAbs < 9007199254740992 := by omega
  simp only [this, if_true]

/-- Without overflow and below `2^53` the verify period is the maximum the specification
states. -/
theorem verifyPeriodOf_small (cv : F64Overflow) (avgInterval : Int) (h0 : 0 ≤ avgInterval)
    (h : avgInterval * 20 < 9007199254740992) :
    verifyPeriodOf cv avgInterval 20 = max (avgInterval * 20) (7 * 24 * Hour) := by
  unfold verifyPeriodOf
  rw [wrapInt64_of_range _ (by unfold minInt64; omega) (by unfold maxInt64; omega),
    float64OfInt64_small _ (by omega) h, float64OfInt64_week]
  unfold int64OfFloat64
  have hH : (7 * 24 * Hour : Int) = 604800000000000 := by decide
  have hr : minInt64 ≤ max (avgInterval * 20) (7 * 24 * Hour) ∧
      max (avgInterval * 20) (7 * 24 * Hour) ≤ maxInt64 := by
    rw [hH]
    unfold minInt64 maxInt64
    constructor
    · exact le_trans (by omega) (le_max_right _ _)
    · exact max_le (by omega) (by omega)
  rw [if_pos hr]

/-- Truncated division of a non-negative `int64` by a positive count stays an `int64`. -/
theorem wrapInt64_tdiv (a b : Int) (ha : 0 ≤ a) (ha' : a ≤ maxInt64) (hb : 0 < b) :
    wrapInt64 (Int.tdiv a b) = a / b ∧ Int.tdiv a b = a / b ∧ 0 ≤ a / b := by
  have hq : Int.tdiv a b = a / b := Int.tdiv_eq_ediv ha hb.le
  have h0 : 0 ≤ a / b := Int.ediv_nonneg ha hb.le
  have hle : a / b ≤ a := Int.ediv_le_self _ ha
  rw [hq]
  exact ⟨wrapInt64_of_range _ (by unfold minInt64; omega) (by omega), rfl, h0⟩

/-- On entry sequences whose span fits a `Duration` and whose average interval times 20 is
below `2^53` ns (104 days), `evalActivity` returns the score of the specification. -/
theorem evalActivity_eq_activitySpec (cv : F64Overflow) (entries : List ContentEntry)
    (now first last : Int) (h20 : 20 ≤ entries.length)
    (hfmem : ∃ e ∈ entries, e.CreatedAt = first) (hfmin : ∀ e ∈ entries, first ≤ e.CreatedAt)
    (hlmem : ∃ e ∈ entries, e.CreatedAt = last) (hlmax : ∀ e ∈ entries, e.CreatedAt ≤ last)
    (hinactive : now - last ≤ 30 * 24 * Hour) (hspan : 24 * Hour ≤ last - first)
    (hfit : last - first ≤ maxInt64)
    (hsmall : (last - first) / ((entries.length : Int) - 1) * 20 < 9007199254740992) :
    evalActivity cv entries now = .ok (activitySpec entries now) := by
  obtain ⟨f, l, ⟨e1, he1, hf⟩, hfmin', ⟨e2, he2, hl⟩, hlmax', heq⟩ :=
    evalActivity_eq_scoreTail cv entries now h20
  obtain ⟨e1', he1', hf'⟩ := hfmem
  obtain ⟨e2', he2', hl'⟩ := hlmem
  have hff : f = first := by
    have a := hfmin' e1' he1'
    have b := hfmin e1 he1
    omega
  have hll : l = last := by
    have a := hlmax' e2' he2'
    have b := hlmax e2 he2
    omega
  subst hff hll
  have hH : Hour = 3600000000000 := rfl
  have hmin : (entries.map fun e => e.CreatedAt).min? = some f :=
    min?_eq_some_of _ f (List.mem_map.mpr ⟨e1', he1', hf'⟩)
      (fun b hb => by
        obtain ⟨e, he, rfl⟩ := List.mem_map.mp hb
        exact hfmin e he)
  have hmax : (entries.map fun e => e.CreatedAt).max? = some l :=
    max?_eq_some_of _ l (List.mem_map.mpr ⟨e2', he2', hl'⟩)
      (fun b hb => by
        obtain ⟨e, he, rfl⟩ := List.mem_map.mp hb
        exact hlmax e he)
  have hs1 : ¬ (Time.Sub now l > 30 * 24 * Hour) := by
    have := Time.Sub_le_of_le now l (30 * 24 * Hour) hinactive (by decide)
    omega
  have hs2 : Time.Sub l f = l - f :=
    Time.Sub_eq l f (by unfold minInt64; rw [hH] at hspan; omega) hfit
  have hs3 : ¬ (l - f < 24 * Hour) := by omega
  have hn1 : (0 : Int) < (entries.length : Int) - 1 := by omega
  obtain ⟨hw, ht, havg0⟩ := wrapInt64_tdiv (l - f) ((entries.length : Int) - 1)
    (by rw [hH] at hspan; omega) hfit hn1
  have hw' : wrapInt64 ((l - f) / ((entries.length : Int) - 1)) =
      (l - f) / ((entries.length : Int) - 1) := by rw [ht] at hw; exact hw
  have hvp := verifyPeriodOf_small cv ((l - f) / ((entries.length : Int) - 1)) havg0 hsmall
  have hvp0 : 0 ≤ max ((l - f) / ((entries.length : Int) - 1) * 20) (7 * 24 * Hour) :=
    le_trans (by decide) (le_max_right _ _)
  have hvpmax : max ((l - f) / ((entries.length : Int) - 1) * 20) (7 * 24 * Hour) ≤ maxInt64 :=
    max_le (by unfold maxInt64; omega) (by decide)
  have hneg : wrapInt64 (-(max ((l - f) / ((entries.length : Int) - 1) * 20) (7 * 24 * Hour))) =
      -(max ((l - f) / ((entries.length : Int) - 1) * 20) (7 * 24 * Hour)) :=
    wrapInt64_of_range _ (by unfold minInt64; unfold maxInt64 at hvpmax; omega)
      (by unfold maxInt64; omega)
  have hstart : Time.Add now
      (-(max ((l - f) / ((entries.length : Int) - 1) * 20) (7 * 24 * Hour))) =
      now - max ((l - f) / ((entries.length : Int) - 1) * 20) (7 * 24 * Hour) := by
    unfold Time.Add; ring
  rw [heq]
  unfold scoreTail activitySpec
  simp only [hmin, hmax]
  rw [if_neg hs1, hs2, if_neg hs3]
  have hd : (entries.length : Int) - 1 ≠ 0 := by omega
  simp only [Duration.div, hd, if_false, Except.bind, ht, hw', hvp, hneg, hstart, gt_iff_lt]
  split_ifs with hc
  · rfl
  · have hcpos : (0 : Int) <
        ((entries.countP (fun e => decide
          (now - max ((l - f) / ((entries.length : Int) - 1) * 20) (7 * 24 * Hour) <
            e.CreatedAt)) : Nat) : Int) := by omega
    obtain ⟨hw2, ht2, -⟩ := wrapInt64_tdiv _ _ hvp0 hvpmax hcpos
    rw [ht2] at hw2
    simp only [ht2, hw2]

/-- Conversion to `float64` of a non-positive integer is non-positive. -/
theorem float64OfInt64_nonpos (x : Int) (h : x ≤ 0) : float64OfInt64 x ≤ 0 := by
  have hs : Int.sign x ≤ 0 := by
    rcases eq_or_lt_of_le h with h0 | hneg
    · rw [h0]; exact le_refl _
    · rw [Int.sign_eq_neg_one_of_neg hneg]; decide
  unfold float64OfInt64
  simp only
  split_ifs
  · exact h
  · exact Int.mul_nonpos_of_nonpos_of_nonneg hs (Int.ofNat_nonneg _)
  · exact Int.mul_nonpos_of_nonpos_of_nonneg hs (Int.ofNat_nonneg _)

/-- Conversion to `float64` of a natural number `n` with `2^(e+52) ≤ n < 2^(e+53)`,
`e ≥ 1`: the last `e` bits are rounded away, ties to even. -/
theorem float64OfInt64_eval (n e : Nat) (he : 1 ≤ e) (hlo : 2 ^ (e + 52) ≤ n)
    (hhi : n < 2 ^ (e + 53)) :
    float64OfInt64 (n : Int) =
      (((if 2 ^ (e - 1) < n % 2 ^ e ∨ (n % 2 ^ e = 2 ^ (e - 1) ∧ n / 2 ^ e % 2 = 1) then
          n / 2 ^ e + 1 else n / 2 ^ e) * 2 ^ e : Nat) : Int) := by
  have hpos : 0 < n := lt_of_lt_of_le (by positivity) hlo
  have hbig : ¬ n < 9007199254740992 := by
    have h53 : (2 : Nat) ^ 53 = 9007199254740992 := by norm_num
    have : 2 ^ 53 ≤ 2 ^ (e + 52) := Nat.pow_le_pow_right (by norm_num) (by omega)
    omega
  have hlog : Nat.log2 n = e + 52 := by
    rw [Nat.log2_eq_log_two]
    exact Nat.log_eq_of_pow_le_of_lt_pow hlo hhi
  have hsign : Int.sign (n : Int) = 1 := Int.sign_eq_one_of_pos (by exact_mod_cast hpos)
  unfold float64OfInt64
  simp only [Int.natAbs_ofNat, hbig, if_false, hlog, Nat.add_sub_cancel, hsign, one_mul]

/-- The verify period when `avgInterval * 20` wraps around to a negative `int64`: seven
days. -/
theorem verifyPeriodOf_yearOne (cv : F64Overflow) :
    verifyPeriodOf cv 485440633518672410 20 = 7 * 24 * Hour := by
  have hw : wrapInt64 (485440633518672410 * 20) = -8737931403336103416 := by decide
  have hf := float64OfInt64_nonpos (-8737931403336103416) (by decide)
  unfold verifyPeriodOf
  rw [hw, float64OfInt64_week, max_eq_right (le_trans hf (by decide))]
  unfold int64OfFloat64
  rw [if_pos (by decide)]

/-- The verify period when `avgInterval * 20` is `2^55 + 18132`, halfway between two
doubles: four nanoseconds less. -/
theorem verifyPeriodOf_threeWeek (cv : F64Overflow) :
    verifyPeriodOf cv 1801439850949105 20 = 1801439850949105 * 20 - 4 := by
  have hw : wrapInt64 (1801439850949105 * 20) = ((36028797018982100 : Nat) : Int) := by decide
  have hf := float64OfInt64_eval 36028797018982100 3 (by decide) (by norm_num) (by norm_num)
  have hv : (((if 2 ^ (3 - 1) < 36028797018982100 % 2 ^ 3 ∨
      (36028797018982100 % 2 ^ 3 = 2 ^ (3 - 1) ∧ 36028797018982100 / 2 ^ 3 % 2 = 1) then
        36028797018982100 / 2 ^ 3 + 1 else 36028797018982100 / 2 ^ 3) * 2 ^ 3 : Nat) : Int) =
      36028797018982096 := by decide
  rw [hv] at hf
  unfold verifyPeriodOf
  rw [hw, hf, float64OfInt64_week, max_eq_left (by decide)]
  unfold int64OfFloat64
  rw [if_pos (by decide)]
  decide

/-- The verify period when `avgInterval * 20` is `2^63 - 8`, which converts to the double
`2^63`: no `int64`, so the conversion back is implementation-dependent. -/
theorem verifyPeriodOf_yearOne21 :
    verifyPeriodOf .indefinite 461168601842738790 20 = minInt64 ∧
    verifyPeriodOf .saturate 461168601842738790 20 = maxInt64 := by
  have hw : wrapInt64 (461168601842738790 * 20) = ((9223372036854775800 : Nat) : Int) := by
    decide
  have hf := float64OfInt64_eval 9223372036854775800 10 (by decide) (by norm_num) (by norm_num)
  have hv : (((if 2 ^ (10 - 1) < 9223372036854775800 % 2 ^ 10 ∨
      (9223372036854775800 % 2 ^ 10 = 2 ^ (10 - 1) ∧ 9223372036854775800 / 2 ^ 10 % 2 = 1) then
        9223372036854775800 / 2 ^ 10 + 1 else 9223372036854775800 / 2 ^ 10) * 2 ^ 10 : Nat) :
        Int) = 9223372036854775808 := by decide
  rw [hv] at hf
  have hmax : max (9223372036854775808 : Int) (7 * 24 * Hour) = 9223372036854775808 :=
    max_eq_left (by decide)
  have hout : ¬ (minInt64 ≤ (9223372036854775808 : Int) ∧
      (9223372036854775808 : Int) ≤ maxInt64) := by decide
  constructor
  · unfold verifyPeriodOf
    rw [hw, hf, float64OfInt64_week, hmax]
    unfold int64OfFloat64
    simp only [hout, if_false]
  · unfold verifyPeriodOf
    rw [hw, hf, float64OfInt64_week, hmax]
    unfold int64OfFloat64
    simp only [hout, if_false]



/-- The scorer, given the values of its intermediate results. -/
theorem scoreTail_eval (cv : F64Overflow) (n first last now : Int) (count : Int → Int)
    (avgInterval verifyPeriod verifyEntryCount verifyIntervalAvg : Int)
    (h1 : ¬ (Time.Sub now last > 30 * 24 * Hour))
    (h2 : ¬ (Time.Sub last first < 24 * Hour))
    (hd : Duration.div (Time.Sub last first) (n - 1) = .ok avgInterval)
    (hvp : verifyPeriodOf cv avgInterval 20 = verifyPeriod)
    (hc : count (Time.Add now (wrapInt64 (-verifyPeriod))) = verifyEntryCount)
    (hc0 : verifyEntryCount ≠ 0)
    (hv : Duration.div verifyPeriod verifyEntryCount = .ok verifyIntervalAvg) :
    scoreTail cv n first last now count =
      .ok (Float64.divInt avgInterval verifyIntervalAvg) := by
  unfold scoreTail
  rw [if_neg h1, if_neg h2, hd]
  simp only [Except.bind, hvp, hc, hc0, if_false, hv]

/-- The score of the 20 entries of `yearOneEntries` at `llmEnrichStartDate`. -/
theorem evalActivity_yearOne (cv : F64Overflow) :
    evalActivity cv yearOneEntries llmEnrichStartDate =
      .ok (Float64.divInt 485440633518672410 31831578947368) := by
  have h0 : index (sortSlice yearOneEntries) 0 = .ok (entryAt zeroTime) := by rfl
  have hN : index (sortSlice yearOneEntries) ((yearOneEntries.length : Int) - 1) =
      .ok (entryAt llmEnrichStartDate) := by rfl
  rw [evalActivity_eq_scoreTail_of_index cv yearOneEntries llmEnrichStartDate _ _ (by decide)
    h0 hN]
  exact scoreTail_eval cv _ (entryAt zeroTime).CreatedAt (entryAt llmEnrichStartDate).CreatedAt
    llmEnrichStartDate _ 485440633518672410 (7 * 24 * Hour) 19 31831578947368
    (by decide) (by decide) (by rfl) (verifyPeriodOf_yearOne cv) (by decide) (by decide) (by rfl)

/-- The score of the 20 entries of `threeWeekEntries` at `threeWeekNow`. -/
theorem evalActivity_threeWeek (cv : F64Overflow) :
    evalActivity cv threeWeekEntries threeWeekNow =
      .ok (Float64.divInt 1801439850949105 1896252474683268) := by
  have h0 : index (sortSlice threeWeekEntries) 0 = .ok (entryAt 1659312000000000000) := by rfl
  have hN : index (sortSlice threeWeekEntries) ((threeWeekEntries.length : Int) - 1) =
      .ok (entryAt (1659312000000000000 + 19 * 1801439850949000 + 2000)) := by rfl
  rw [evalActivity_eq_scoreTail_of_index cv threeWeekEntries threeWeekNow _ _ (by decide)
    h0 hN]
  exact scoreTail_eval cv _ (entryAt 1659312000000000000).CreatedAt
    (entryAt (1659312000000000000 + 19 * 1801439850949000 + 2000)).CreatedAt
    threeWeekNow _ 1801439850949105 (1801439850949105 * 20 - 4) 19 1896252474683268
    (by decide) (by decide) (by rfl) (verifyPeriodOf_threeWeek cv) (by decide) (by decide)
    (by rfl)

/-- The score of the 21 entries of `yearOneEntries21` at `llmEnrichStartDate` where the
conversion of the double `2^63` yields the smallest `int64`. -/
theorem evalActivity_yearOne21 :
    evalActivity .indefinite yearOneEntries21 llmEnrichStartDate =
      .ok (Float64.divInt 461168601842738790 (-461168601842738790)) := by
  have h0 : index (sortSlice yearOneEntries21) 0 = .ok (entryAt zeroTime) := by rfl
  have hN : index (sortSlice yearOneEntries21) ((yearOneEntries21.length : Int) - 1) =
      .ok (entryAt llmEnrichStartDate) := by rfl
  rw [evalActivity_eq_scoreTail_of_index .indefinite yearOneEntries21 llmEnrichStartDate _ _
    (by decide) h0 hN]
  exact scoreTail_eval .indefinite _ (entryAt zeroTime).CreatedAt
    (entryAt llmEnrichStartDate).CreatedAt llmEnrichStartDate _ 461168601842738790 minInt64 20
    (-461168601842738790)
    (by decide) (by decide) (by rfl) verifyPeriodOf_yearOne21.1 (by decide) (by decide) (by rfl)

/-! ## The sign of the activity score -/

/-- The method `Time.Sub` yields an `int64`. -/
theorem Time.Sub_range (t u : Int) : minInt64 ≤ Time.Sub t u ∧ Time.Sub t u ≤ maxInt64 := by
  unfold Time.Sub
  unfold minInt64 maxInt64
  split_ifs <;> omega

/-- Where the conversion of an out-of-range double saturates, the verify period lies
between seven days and the largest `int64`. -/
theorem verifyPeriodOf_saturate (avgInterval minEntryCount : Int) :
    7 * 24 * Hour ≤ verifyPeriodOf .saturate avgInterval minEntryCount ∧
      verifyPeriodOf .saturate avgInterval minEntryCount ≤ maxInt64 := by
  unfold verifyPeriodOf int64OfFloat64
  rw [float64OfInt64_week]
  have hmax := le_max_right (float64OfInt64 (wrapInt64 (avgInterval * minEntryCount))) (7 * 24 * Hour)
  split_ifs with hr
  · exact ⟨hmax, hr.2⟩
  · exact ⟨by decide, le_refl _⟩

/-- A scorer whose verify period is positive returns no negative number. -/
theorem scoreTail_nonneg (cv : F64Overflow) (n first last now : Int) (count : Int → Int)
    (hn : 20 ≤ n) (hc0 : ∀ s, 0 ≤ count s)
    (hvp : ∀ a, 7 * 24 * Hour ≤ verifyPeriodOf cv a 20 ∧ verifyPeriodOf cv a 20 ≤ maxInt64) :
    ∃ f : Float64, scoreTail cv n first last now count = .ok f ∧ f ≠ .negInf ∧
      ∀ q : ℚ, f = .finite q → 0 ≤ q := by
  have hzero : ∃ f : Float64, (Except.ok (Float64.finite 0) : Except GoPanic Float64) = .ok f ∧
      f ≠ .negInf ∧ ∀ q : ℚ, f = .finite q → 0 ≤ q :=
    ⟨_, rfl, by simp, fun q hq => by rw [← Float64.finite.inj hq]⟩
  have hH : Hour = 3600000000000 := rfl
  unfold scoreTail
  split_ifs with h1 h2
  · exact hzero
  · exact hzero
  · have hd : n - 1 ≠ 0 := by omega
    obtain ⟨-, hsmax⟩ := Time.Sub_range last first
    have hs0 : 0 ≤ Time.Sub last first := by rw [hH] at h2; omega
    obtain ⟨hw, ht, havg0⟩ := wrapInt64_tdiv (Time.Sub last first) (n - 1) hs0 hsmax (by omega)
    rw [ht] at hw
    simp only [Duration.div, hd, if_false, Except.bind, ht, hw]
    split_ifs with h3
    · exact hzero
    · obtain ⟨hv1, hv2⟩ := hvp (Time.Sub last first / (n - 1))
      have hcpos : 0 < count (Time.Add now
          (wrapInt64 (-verifyPeriodOf cv (Time.Sub last first / (n - 1)) 20))) := by
        have := hc0 (Time.Add now
          (wrapInt64 (-verifyPeriodOf cv (Time.Sub last first / (n - 1)) 20)))
        omega
      obtain ⟨hw2, ht2, hvia0⟩ := wrapInt64_tdiv
        (verifyPeriodOf cv (Time.Sub last first / (n - 1)) 20) _
        (le_trans (by decide) hv1) hv2 hcpos
      rw [ht2] at hw2
      simp only [ht2, hw2]
      refine ⟨_, rfl, ?_, ?_⟩
      · unfold Float64.divInt
        split_ifs <;> simp
        omega
      · intro q hq
        unfold Float64.divInt at hq
        split_ifs at hq with hz
        · rw [← Float64.finite.inj hq]
          exact div_nonneg (by exact_mod_cast havg0) (by exact_mod_cast hvia0)

/-- Where the conversion of an out-of-range double saturates, `evalActivity` returns no
negative number. -/
theorem evalActivity_nonneg_saturate (entries : List ContentEntry) (now : Int) :
    ∃ f : Float64, evalActivity .saturate entries now = .ok f ∧ f ≠ .negInf ∧
      ∀ q : ℚ, f = .finite q → 0 ≤ q := by
  by_cases hshort : entries.length < 20
  · exact ⟨_, evalActivity_lt_minEntryCount .saturate entries now hshort, by simp,
      fun q hq => by rw [← Float64.finite.inj hq]⟩
  · obtain ⟨first, last, -, -, -, -, heq⟩ :=
      evalActivity_eq_scoreTail .saturate entries now (by omega)
    rw [heq]
    exact scoreTail_nonneg .saturate _ first last now _ (by omega) (fun s => by positivity)
      (fun a => verifyPeriodOf_saturate a 20)

/-- The score of the 21 entries of `yearOneEntries21` at `llmEnrichStartDate` where the
conversion of the double `2^63` saturates. -/
theorem evalActivity_yearOne21_saturate :
    evalActivity .saturate yearOneEntries21 llmEnrichStartDate =
      .ok (Float64.divInt 461168601842738790 461168601842738790) := by
  have h0 : index (sortSlice yearOneEntries21) 0 = .ok (entryAt zeroTime) := by rfl
  have hN : index (sortSlice yearOneEntries21) ((yearOneEntries21.length : Int) - 1) =
      .ok (entryAt llmEnrichStartDate) := by rfl
  rw [evalActivity_eq_scoreTail_of_index .saturate yearOneEntries21 llmEnrichStartDate _ _
    (by decide) h0 hN]
  exact scoreTail_eval .saturate _ (entryAt zeroTime).CreatedAt
    (entryAt llmEnrichStartDate).CreatedAt llmEnrichStartDate _ 461168601842738790 maxInt64 20
    461168601842738790
    (by decide) (by decide) (by rfl) verifyPeriodOf_yearOne21.2 (by decide) (by decide) (by rfl)

/-- In the cadence scenario `evalActivity` returns the score of the specification. -/
theorem evalActivity_eq_activitySpec_cadence (cv : F64Overflow) :
    evalActivity cv (cadenceEntries 0) (25 * (24 * Hour)) =
      .ok (activitySpec (cadenceEntries 0) (25 * (24 * Hour))) :=
  evalActivity_eq_activitySpec cv (cadenceEntries 0) (25 * (24 * Hour)) 0 (24 * (24 * Hour))
    (by decide) (by decide) (by decide) (by decide) (by decide) (by decide) (by decide)
    (by decide) (by decide)

/-! ## Where the activity score leaves its specification -/

/-- The quotient of an integer by itself as a returned `float64`. -/
theorem Float64.divInt_self (a : Int) (h : a ≠ 0) : Float64.divInt a a = .finite 1 := by
  unfold Float64.divInt
  rw [if_neg h]
  have : (a : ℚ) ≠ 0 := by exact_mod_cast h
  rw [div_self this]

/-- C18: two entry sequences that satisfy the preconditions of the formula (at least 20
entries, `now - last ≤ 30 days`, `last - first ≥ 24h`) on which `evalActivity` does not
return the value of the formula.  On `yearOneEntries` at `llmEnrichStartDate`,
`lastCreated.Sub(firstCreated)` saturates at the largest `Duration`, `avgInterval * 20`
wraps around to a negative `int64`, the verify period is seven days instead of twenty
average intervals, and the result is above 15250 where the formula gives 1.  On
`threeWeekEntries` at `threeWeekNow`, `avgInterval * 20` is not a `float64`, the verify
period is 4 ns short, the first entry drops out of the count, and the result is below 0.96
where the formula gives 1. -/
theorem evalActivity_diverges_from_activitySpec :
    ((20 ≤ yearOneEntries.length ∧
        (∃ e ∈ yearOneEntries, e.CreatedAt = zeroTime) ∧
        (∃ e ∈ yearOneEntries, e.CreatedAt = llmEnrichStartDate) ∧
        (∀ e ∈ yearOneEntries, zeroTime ≤ e.CreatedAt ∧ e.CreatedAt ≤ llmEnrichStartDate) ∧
        llmEnrichStartDate - llmEnrichStartDate ≤ 30 * 24 * Hour ∧
        24 * Hour ≤ llmEnrichStartDate - zeroTime) ∧
      Time.Sub llmEnrichStartDate zeroTime = maxInt64 ∧
      Duration.div maxInt64 19 = .ok 485440633518672410 ∧
      wrapInt64 (485440633518672410 * 20) = -8737931403336103416 ∧
      (∀ cv, verifyPeriodOf cv 485440633518672410 20 = 7 * 24 * Hour) ∧
      (∀ cv, evalActivity cv yearOneEntries llmEnrichStartDate =
        .ok (.finite (485440633518672410 / 31831578947368))) ∧
      activitySpec yearOneEntries llmEnrichStartDate = .finite 1 ∧
      (15250 : ℚ) < 485440633518672410 / 31831578947368) ∧
    ((20 ≤ threeWeekEntries.length ∧
        (∃ e ∈ threeWeekEntries, e.CreatedAt = 1659312000000000000) ∧
        (∃ e ∈ threeWeekEntries, e.CreatedAt = 1693539357168033000) ∧
        (∀ e ∈ threeWeekEntries,
          1659312000000000000 ≤ e.CreatedAt ∧ e.CreatedAt ≤ 1693539357168033000) ∧
        threeWeekNow - 1693539357168033000 ≤ 30 * 24 * Hour ∧
        24 * Hour ≤ 1693539357168033000 - 1659312000000000000) ∧
      Duration.div (Time.Sub 1693539357168033000 1659312000000000000) 19 =
        .ok 1801439850949105 ∧
      (∀ cv, verifyPeriodOf cv 1801439850949105 20 = 1801439850949105 * 20 - 4) ∧
      (∀ cv, evalActivity cv threeWeekEntries threeWeekNow =
        .ok (.finite (1801439850949105 / 1896252474683268))) ∧
      activitySpec threeWeekEntries threeWeekNow = .finite 1 ∧
      (1801439850949105 / 1896252474683268 : ℚ) < 96 / 100) := by
  refine ⟨⟨⟨by decide, by decide, by decide, by decide, by decide, by decide⟩, by decide,
      by rfl, by decide, verifyPeriodOf_yearOne, ?_, ?_, by norm_num⟩,
    ⟨⟨by decide, by decide, by decide, by decide, by decide, by decide⟩, by rfl,
      verifyPeriodOf_threeWeek, ?_, ?_, by norm_num⟩⟩
  · intro cv
    rw [evalActivity_yearOne cv]
    unfold Float64.divInt
    rw [if_neg (by decide)]
    norm_num
  · have h : activitySpec yearOneEntries llmEnrichStartDate =
        Float64.divInt 3359554863157894736 3359554863157894736 := by rfl
    rw [h, Float64.divInt_self _ (by decide)]
  · intro cv
    rw [evalActivity_threeWeek cv]
    unfold Float64.divInt
    rw [if_neg (by decide)]
    norm_num
  · have h : activitySpec threeWeekEntries threeWeekNow =
        Float64.divInt 1801439850949105 1801439850949105 := by rfl
    rw [h, Float64.divInt_self _ (by decide)]

/-- C20: an entry sequence on which `evalActivity` returns a negative value where the
conversion of an out-of-range double yields the smallest `int64` (x86).  On
`yearOneEntries21` at `llmEnrichStartDate`, `lastCreated.Sub(firstCreated)` saturates,
`avgInterval` is `461168601842738790`, `avgInterval * 20 = 2^63 - 8` converts to the double
`2^63`, the verify period becomes the smallest `int64`, `verifyIntervalAvg` is negative and
the result is `-1`; where the conversion saturates the result is `1`. -/
theorem evalActivity_negative :
    Time.Sub llmEnrichStartDate zeroTime = maxInt64 ∧
    Duration.div maxInt64 20 = .ok 461168601842738790 ∧
    wrapInt64 (461168601842738790 * 20) = 9223372036854775800 ∧
    float64OfInt64 9223372036854775800 = 9223372036854775808 ∧
    verifyPeriodOf .indefinite 461168601842738790 20 = minInt64 ∧
    wrapInt64 (-minInt64) = minInt64 ∧
    yearOneEntries21.countP (fun e =>
      decide (Time.Add llmEnrichStartDate minInt64 < e.CreatedAt)) = 20 ∧
    Duration.div minInt64 20 = .ok (-461168601842738790) ∧
    evalActivity .indefinite yearOneEntries21 llmEnrichStartDate = .ok (.finite (-1)) ∧
    evalActivity .saturate yearOneEntries21 llmEnrichStartDate = .ok (.finite 1) := by
  have hf : float64OfInt64 9223372036854775800 = 9223372036854775808 := by
    have h := float64OfInt64_eval 9223372036854775800 10 (by decide) (by norm_num) (by norm_num)
    have hv : (((if 2 ^ (10 - 1) < 9223372036854775800 % 2 ^ 10 ∨
        (9223372036854775800 % 2 ^ 10 = 2 ^ (10 - 1) ∧
          9223372036854775800 / 2 ^ 10 % 2 = 1) then
          9223372036854775800 / 2 ^ 10 + 1 else 9223372036854775800 / 2 ^ 10) * 2 ^ 10 : Nat) :
          Int) = 9223372036854775808 := by decide
    rw [hv] at h
    exact h
  refine ⟨by decide, by rfl, by decide, hf, verifyPeriodOf_yearOne21.1, by decide, by decide,
    by rfl, ?_, ?_⟩
  · rw [evalActivity_yearOne21]
    unfold Float64.divInt
    rw [if_neg (by decide)]
    norm_num
  · rw [evalActivity_yearOne21_saturate, Float64.divInt_self _ (by decide)]









end SourcesSummary
